import Mathlib

/-!
# Verification of the json-lol recursive-descent JSON parser

A shallow embedding of `src/json.c` (and the slice of `src/json.h` it needs).
Input text is modelled as a list of bytes (`List Nat`); the C string's
terminating NUL is modelled by `nextB` returning `0` past the end of the list.
The parser state mirrors `struct json_parser`: the remaining input, the
1-based line counter, the whitespace-skip flag, and the arena's block list
(modelled as a count of live blocks).  The `longjmp`-based error channel is
modelled with `Except`; the error value carries the state at the point
`parse_error` was called (the C code reads `p->line` and `p->error` there)
together with the formatted message.  SAX callbacks are modelled as an event
trace accumulated in the state, in invocation order.  Numbers are modelled
with exact rationals (see `strtodN`); the machine `size_t` arithmetic of the
arena is modelled as `Nat` with explicit `% 2^64` where the C code can wrap.
Recursive parsing functions take an explicit fuel argument; the driver
`json_parse_sax` supplies fuel that dominates the recursion depth (every
recursive call consumes input).
-/

/-- A byte of input / output.  C `char` values are taken unsigned, 0..255. -/
abbrev Byte := Nat

/-- The numeric value handed to `on_number`, kept exact as an integer
fraction `num / den` (not normalised, so that it stays kernel-computable).
The C code passes the `double` produced by `strtod`; the claims below only
involve values that are exactly representable, where the two agree.
`NumVal.toQ` gives the rational value. -/
structure NumVal where
  num : ℤ
  den : ℕ
deriving DecidableEq, Repr

/-- The rational value of a `NumVal`. -/
def NumVal.toQ (v : NumVal) : ℚ := (v.num : ℚ) / (v.den : ℚ)

/-- One SAX callback invocation, in the order `struct json_sax_cb` receives
them. -/
inductive JEvent where
  | onError (line : Nat) (msg : String)
  | onNull
  | onBoolean (b : Bool)
  | onNumber (v : NumVal)
  | onString (s : List Byte)
  | onArrayStart
  | onArrayEnd
  | onObjectStart
  | onKey (s : List Byte)
  | onObjectEnd
deriving DecidableEq, Repr

/-- Parser state: mirrors `struct json_parser` (`str`, `line`, `skip_space`,
`alloc_head` as a count of live arena blocks), plus the trace of callback
invocations made so far. -/
structure PState where
  str : List Byte
  line : Nat
  skipSpace : Bool
  allocs : Nat
  events : List JEvent
deriving DecidableEq, Repr

/-- Result of a parsing step: either normal return with a value and the
updated state, or a `longjmp` to the top carrying the state at the error
point and the formatted message. -/
abbrev PRes (α : Type) := Except (PState × String) (α × PState)

/-- `isspace`-set actually used by `skip_space`: LF, CR, TAB, SPACE. -/
def isWsByte (c : Byte) : Bool := c == 10 || c == 13 || c == 9 || c == 32

/-- The scanning loop of `skip_space` (json.c:32-59): consumes whitespace,
incrementing `line` on LF, on CR, and once for a CR immediately followed by
LF. -/
def skipSpaceGo : List Byte → Nat → List Byte × Nat
  | 13 :: 10 :: rest, line => skipSpaceGo rest (line + 1)
  | 13 :: rest, line => skipSpaceGo rest (line + 1)
  | 10 :: rest, line => skipSpaceGo rest (line + 1)
  | 9 :: rest, line => skipSpaceGo rest line
  | 32 :: rest, line => skipSpaceGo rest line
  | s, line => (s, line)

/-- `skip_space` on the parser state. -/
def skip_space (st : PState) : PState :=
  let r := skipSpaceGo st.str st.line
  { st with str := r.1, line := r.2 }

/-- `next` (json.c:113-116): peek at the current character; `0` is the
end-of-input sentinel (the C string's terminating NUL). -/
def nextB (st : PState) : Byte := st.str.headD 0

/-- `consume` (json.c:118-124): return the current character, advance, and
(unless suspended) skip whitespace. -/
def consumeSt (st : PState) : Byte × PState :=
  let c := nextB st
  let st' := { st with str := st.str.tail }
  (c, if st.skipSpace then skip_space st' else st')

/-- `isgraph` in the C locale: printable and not space. -/
def isgraphB (c : Byte) : Bool := 33 ≤ c && c ≤ 126

/-- Lower-case hex digit, as `sprintf "%02x"` produces. -/
def hexDigitChar (n : Nat) : Char :=
  if n < 10 then Char.ofNat (48 + n) else Char.ofNat (87 + n)

/-- The `PR` macro (json.c:126): show a byte as `'c'` when printable, else as
`\xHH`. -/
def prByte (c : Byte) : String :=
  if isgraphB c then String.mk ['\'', Char.ofNat c, '\'']
  else String.mk ['\\', 'x', hexDigitChar (c / 16), hexDigitChar (c % 16)]

/-- `unexpected_token` (json.c:128-136). -/
def unexpectedTok {α : Type} (st : PState) : PRes α :=
  if nextB st == 0 then .error (st, "unexpected end of input")
  else .error (st, "unexpected token " ++ prByte (nextB st))

/-- `expect` (json.c:138-148): error when the next character differs, else
consume it (except for the end-of-input sentinel, which is never consumed). -/
def expectTok (ch : Byte) (st : PState) : PRes Unit :=
  if nextB st != ch then
    .error (st, "unexpected token " ++ prByte (nextB st) ++ ", expected " ++ prByte ch)
  else if ch != 0 then .ok ((), (consumeSt st).2)
  else .ok ((), st)

def isdigitB (c : Byte) : Bool := 48 ≤ c && c ≤ 57

def isxdigitB (c : Byte) : Bool :=
  (48 ≤ c && c ≤ 57) || (97 ≤ c && c ≤ 102) || (65 ≤ c && c ≤ 70)

def toLowerB (c : Byte) : Byte := if 65 ≤ c && c ≤ 90 then c + 32 else c

/-- `iscntrl` in the C locale. -/
def iscntrlB (c : Byte) : Bool := c < 32 || c == 127

/-- The digit-accumulation step of `parse_hexquad`: `val <<= 4` then `|=` the
digit value (the digit is below 16, so `|` is `+`). -/
def hexVal (c : Byte) : Nat :=
  if 48 ≤ c && c ≤ 57 then c - 48 else 10 + toLowerB c - 97

/-- The four-iteration loop of `parse_hexquad` (json.c:150-167). -/
def parse_hexquad_go : Nat → Nat → PState → PRes Nat
  | 0, val, st => .ok (val, st)
  | i + 1, val, st =>
    if !isxdigitB (nextB st) then unexpectedTok st
    else
      let r := consumeSt st
      parse_hexquad_go i (val * 16 + hexVal r.1) r.2

def parse_hexquad (st : PState) : PRes Nat := parse_hexquad_go 4 0 st

/-- `parse_escaped_char` (json.c:169-194): a backslash escape producing a raw
UTF-16 code unit (for `\uXXXX`) or a single-byte escape. -/
def parse_escaped_char (st : PState) : PRes Nat :=
  match expectTok 92 st with
  | .error e => .error e
  | .ok (_, st) =>
    let c := nextB st
    if c == 34 then .ok (34, (consumeSt st).2)
    else if c == 92 then .ok (92, (consumeSt st).2)
    else if c == 47 then .ok (47, (consumeSt st).2)
    else if c == 98 then .ok (8, (consumeSt st).2)
    else if c == 102 then .ok (12, (consumeSt st).2)
    else if c == 110 then .ok (10, (consumeSt st).2)
    else if c == 114 then .ok (13, (consumeSt st).2)
    else if c == 116 then .ok (9, (consumeSt st).2)
    else if c == 117 then parse_hexquad (consumeSt st).2
    else unexpectedTok st

/-- UTF-8 encoding of one code point, exactly as `encode_utf8` (json.c:196-220)
computes it: choose the byte count and leading-byte mask from the magnitude,
then emit the leading byte and `t` continuation bytes (the C masks `0x7f` and
`0xbf` combined with the `|` of the tag bits coincide with standard UTF-8 for
these magnitudes). -/
def encode_utf8_char (ch : Nat) : List Byte :=
  let t : Nat := if ch ≥ 0x10000 then 3 else if ch ≥ 0x800 then 2 else if ch ≥ 0x80 then 1 else 0
  let bm : Nat := if ch ≥ 0x10000 then 0xf0 else if ch ≥ 0x800 then 0xe0 else if ch ≥ 0x80 then 0xc0 else 0
  (bm ||| ((ch >>> (6 * t)) &&& 0x7f)) ::
    (List.range t).map (fun j => 0x80 ||| ((ch >>> (6 * (t - (j + 1)))) &&& 0xbf))

/-- `encode_utf8` over a buffer of `chars` code points. -/
def encode_utf8 (src : List Nat) : List Byte := (src.map encode_utf8_char).flatten

/-- Machine limits: the parser targets 64-bit `size_t` and 32-bit `int`. -/
def SIZE_MAX : Nat := 2 ^ 64 - 1

/-- `sizeof(struct alloc)`: two pointers and a flexible array member. -/
def structAllocSize : Nat := 16

def INT_MAX : Nat := 2 ^ 31 - 1

def ptrSize : Nat := 8

/-- `mem_alloc` (json.c:70-88) on the parser state: overflow-check the block
size, then push a block onto the arena list.  (`malloc` failure, an
environment condition, is not modelled.) -/
def mem_allocSt (size : Nat) (st : PState) : PRes Unit :=
  if size > SIZE_MAX - structAllocSize then .error (st, "too large allocation")
  else .ok ((), { st with allocs := st.allocs + 1 })

/-- The byte count `mem_alloc` (json.c:70-88) hands to `malloc`, after its
overflow check: `none` means the request is rejected with the fatal
"too large allocation" parse error before `malloc` is called. -/
def mem_alloc_request (size : Nat) : Option Nat :=
  if size > SIZE_MAX - structAllocSize then none
  else some (structAllocSize + size)

/-- The byte count `mem_realloc` (json.c:90-111) hands to the underlying
allocator.  A NULL pointer delegates to `mem_alloc`; otherwise the `size_t`
sum `sizeof(struct alloc) + size` is computed *unchecked* (wrapping mod
`2^64`) and passed straight to `realloc`. -/
def mem_realloc_request (ptrIsNull : Bool) (size : Nat) : Option Nat :=
  if ptrIsNull then mem_alloc_request size
  else some ((structAllocSize + size) % 2 ^ 64)

/-- Append an event to the trace: one callback invocation. -/
def emit (e : JEvent) (st : PState) : PState :=
  { st with events := st.events ++ [e] }

/-- The surrogate-pair combination of json.c:241:
`(buf[0] << 10) + buf[1] - 0x35fdc00`. -/
def surrogateCombine (hi lo : Nat) : Nat := (hi <<< 10) + lo - 0x35fdc00

/-- The `'\\'` case of the string-body loop (json.c:232-252): decode one
escape; on a high surrogate try to pair it with an immediately following
escape, substituting U+FFFD for an unmatched high surrogate; substitute
U+FFFD for a lone low surrogate.  Returns the list of code points (`buf`,
`chars` entries) handed to `encode_utf8`. -/
def parse_string_escape (st : PState) : PRes (List Nat) :=
  match parse_escaped_char st with
  | .error e => .error e
  | .ok (b0, st) =>
    if 0xd800 ≤ b0 && b0 ≤ 0xdbff then
      if nextB st == 92 then
        match parse_escaped_char st with
        | .error e => .error e
        | .ok (b1, st) =>
          if 0xdc00 ≤ b1 && b1 ≤ 0xdfff then
            .ok ([surrogateCombine b0 b1], st)
          else
            .ok ([0xfffd, b1], st)
      else .ok ([0xfffd], st)
    else if 0xdc00 ≤ b0 && b0 ≤ 0xdfff then .ok ([0xfffd], st)
    else .ok ([b0], st)

/-- The body loop of `parse_raw_string` (json.c:229-270).  `buf` is the bytes
written so far (`len` is its length), `alloc` the current buffer capacity.
The growth check `len > alloc - 6 - 1` and the 150% growth with its
`SIZE_MAX / 3` overflow guard are as in the source; `mem_realloc` keeps the
arena block count unchanged. -/
def parse_raw_string_go : Nat → List Byte → Nat → PState → PRes (List Byte × Nat)
  | 0, _, _, st => .error (st, "out of fuel")
  | fuel + 1, buf, alloc, st =>
    if nextB st == 34 then .ok ((buf, alloc), st)
    else
      match (if nextB st == 92 then parse_string_escape st
             else if iscntrlB (nextB st) then unexpectedTok st
             else
               let r := consumeSt st
               .ok ([r.1], r.2) : PRes (List Nat)) with
      | .error e => .error e
      | .ok (chunk, st) =>
        if buf.length > alloc - 6 - 1 then
          if alloc > SIZE_MAX / 3 then .error (st, "too long string")
          else parse_raw_string_go fuel (buf ++ encode_utf8 chunk) ((alloc * 3) >>> 1) st
        else parse_raw_string_go fuel (buf ++ encode_utf8 chunk) alloc st

/-- `parse_raw_string` (json.c:222-277): allocate the initial 16-byte buffer,
consume the opening quote (whitespace-skipping still on at that point),
suspend whitespace skipping for the body, and consume the closing quote with
skipping restored.  Returns the decoded UTF-8 bytes. -/
def parse_raw_string (fuel : Nat) (st : PState) : PRes (List Byte) :=
  match mem_allocSt 16 st with
  | .error e => .error e
  | .ok (_, st) =>
    match expectTok 34 st with
    | .error e => .error e
    | .ok (_, st) =>
      match parse_raw_string_go fuel [] 16 { st with skipSpace := false } with
      | .error e => .error e
      | .ok ((buf, _), st) =>
        .ok (buf, (consumeSt { st with skipSpace := true }).2)

/-- `while (isdigit(next(p))) consume(p);` -/
def skipDigits : Nat → PState → PState
  | 0, st => st
  | fuel + 1, st =>
    if isdigitB (nextB st) then skipDigits fuel (consumeSt st).2 else st

def digitsVal (l : List Byte) : Nat := l.foldl (fun a c => a * 10 + (c - 48)) 0

/-- Modelled from the spec: the "standard string-to-double conversion"
(`strtod` of the C library, which is not part of this repository) applied to
the span starting at the first character of the number literal.  Decimal
forms only (optional sign, digits, optional fraction, optional exponent that
is ignored when no digit follows it); the value is kept as an exact rational
where `strtod` rounds to the nearest `double`.  `none` models `end == start`,
i.e. no conversion performed.  (Hexadecimal/infinity/NaN forms accepted by C
`strtod` are unreachable as parsed *values* here: the grammar in
`parse_number` leaves the cursor inside such forms, so the top-level
end-of-input check fails.) -/
def strtodN (s : List Byte) : Option NumVal :=
  let sr : ℤ × List Byte :=
    match s with
    | 45 :: r => (-1, r)
    | 43 :: r => (1, r)
    | _ => (1, s)
  let ds := sr.2.takeWhile isdigitB
  let s2 := sr.2.dropWhile isdigitB
  let fr : List Byte × List Byte :=
    match s2 with
    | 46 :: r => (r.takeWhile isdigitB, r.dropWhile isdigitB)
    | _ => ([], s2)
  if ds.length + fr.1.length = 0 then none
  else
    let mant : Nat := digitsVal ds * 10 ^ fr.1.length + digitsVal fr.1
    let expv : ℤ :=
      match fr.2 with
      | 101 :: 45 :: r | 69 :: 45 :: r =>
        if (r.takeWhile isdigitB).isEmpty then 0 else -(digitsVal (r.takeWhile isdigitB) : ℤ)
      | 101 :: 43 :: r | 69 :: 43 :: r =>
        if (r.takeWhile isdigitB).isEmpty then 0 else (digitsVal (r.takeWhile isdigitB) : ℤ)
      | 101 :: r | 69 :: r =>
        if (r.takeWhile isdigitB).isEmpty then 0 else (digitsVal (r.takeWhile isdigitB) : ℤ)
      | _ => 0
    if 0 ≤ expv then some ⟨sr.1 * ((mant * 10 ^ expv.toNat : Nat) : ℤ), 10 ^ fr.1.length⟩
    else some ⟨sr.1 * (mant : ℤ), 10 ^ fr.1.length * 10 ^ (-expv).toNat⟩

/-- `parse_number` (json.c:336-380): validate the number grammar (note that
`consume` keeps skipping whitespace here), then hand the *original* span to
`strtod` and emit `on_number`. -/
def parse_number (fuel : Nat) (st : PState) : PRes Unit :=
  let start := st.str
  let st := if nextB st == 45 then (consumeSt st).2 else st
  if !isdigitB (nextB st) then unexpectedTok st
  else
    let r := consumeSt st
    let st := if r.1 != 48 then skipDigits fuel r.2 else r.2
    match (if nextB st == 46 then
             let st := (consumeSt st).2
             if !isdigitB (nextB st) then unexpectedTok st
             else .ok ((), skipDigits fuel st)
           else .ok ((), st) : PRes Unit) with
    | .error e => .error e
    | .ok (_, st) =>
      match (if toLowerB (nextB st) == 101 then
               let st := (consumeSt st).2
               let st := if nextB st == 43 || nextB st == 45 then (consumeSt st).2 else st
               if !isdigitB (nextB st) then unexpectedTok st
               else .ok ((), skipDigits fuel st)
             else .ok ((), st) : PRes Unit) with
      | .error e => .error e
      | .ok (_, st) =>
        match strtodN start with
        | none => .error (st, "strtod failed")
        | some q => .ok ((), emit (.onNumber q) st)

/-- The `expect` loop of `parse_keyword` (json.c:387-388). -/
def expectList : List Byte → PState → PRes Unit
  | [], st => .ok ((), st)
  | c :: cs, st =>
    match expectTok c st with
    | .error e => .error e
    | .ok (_, st) => expectList cs st

/-- `parse_keyword` (json.c:382-390): the first character is already known to
match; consume it, `expect` the remaining characters, and allocate the unused
`struct json_value` (24 bytes on the target ABI). -/
def parse_keyword (kw : List Byte) (st : PState) : PRes Unit :=
  let st := (consumeSt st).2
  match expectList kw.tail st with
  | .error e => .error e
  | .ok (_, st) => mem_allocSt 24 st

mutual

/-- `parse_value` (json.c:392-423): dispatch on the next character. -/
def parse_value : Nat → PState → PRes Unit
  | 0, st => .error (st, "out of fuel")
  | fuel + 1, st =>
    let c := nextB st
    if c == 123 then parse_object fuel st
    else if c == 91 then parse_array fuel st
    else if c == 34 then
      match parse_raw_string fuel st with
      | .error e => .error e
      | .ok (s, st) => .ok ((), emit (.onString s) st)
    else if c == 45 || isdigitB c then parse_number fuel st
    else if c == 116 then
      match parse_keyword [116, 114, 117, 101] st with
      | .error e => .error e
      | .ok (_, st) => .ok ((), emit (.onBoolean true) st)
    else if c == 102 then
      match parse_keyword [102, 97, 108, 115, 101] st with
      | .error e => .error e
      | .ok (_, st) => .ok ((), emit (.onBoolean false) st)
    else if c == 110 then
      match parse_keyword [110, 117, 108, 108] st with
      | .error e => .error e
      | .ok (_, st) => .ok ((), emit .onNull st)
    else unexpectedTok st

/-- `parse_object` (json.c:287-312). -/
def parse_object : Nat → PState → PRes Unit
  | 0, st => .error (st, "out of fuel")
  | fuel + 1, st =>
    match expectTok 123 st with
    | .error e => .error e
    | .ok (_, st) =>
      let st := emit .onObjectStart st
      if nextB st == 125 then
        .ok ((), emit .onObjectEnd (consumeSt st).2)
      else
        match parse_object_loop fuel st with
        | .error e => .error e
        | .ok (_, st) => .ok ((), emit .onObjectEnd (consumeSt st).2)

/-- The member loop of `parse_object`: runs until the `}` that ends the
object is the next character (the caller consumes it). -/
def parse_object_loop : Nat → PState → PRes Unit
  | 0, st => .error (st, "out of fuel")
  | fuel + 1, st =>
    match parse_raw_string fuel st with
    | .error e => .error e
    | .ok (name, st) =>
      let st := emit (.onKey name) st
      match expectTok 58 st with
      | .error e => .error e
      | .ok (_, st) =>
        match parse_value fuel st with
        | .error e => .error e
        | .ok (_, st) =>
          if nextB st == 125 then .ok ((), st)
          else
            match expectTok 44 st with
            | .error e => .error e
            | .ok (_, st) => parse_object_loop fuel st

/-- `parse_array` (json.c:314-334). -/
def parse_array : Nat → PState → PRes Unit
  | 0, st => .error (st, "out of fuel")
  | fuel + 1, st =>
    match expectTok 91 st with
    | .error e => .error e
    | .ok (_, st) =>
      let st := emit .onArrayStart st
      if nextB st == 93 then
        .ok ((), emit .onArrayEnd (consumeSt st).2)
      else
        match parse_array_loop fuel st with
        | .error e => .error e
        | .ok (_, st) => .ok ((), emit .onArrayEnd (consumeSt st).2)

/-- The element loop of `parse_array`: runs until the `]` that ends the array
is the next character (the caller consumes it). -/
def parse_array_loop : Nat → PState → PRes Unit
  | 0, st => .error (st, "out of fuel")
  | fuel + 1, st =>
    match parse_value fuel st with
    | .error e => .error e
    | .ok (_, st) =>
      if nextB st == 93 then .ok ((), st)
      else
        match expectTok 44 st with
        | .error e => .error e
        | .ok (_, st) => parse_array_loop fuel st

end

/-- Result of `json_parse_sax`: return value, the callback trace, and the
number of live arena blocks when the call returns. -/
structure SaxResult where
  retval : Int
  events : List JEvent
  allocs : Nat
deriving DecidableEq, Repr

/-- Fuel that dominates the recursion depth of the parser on `input`: every
recursive call is separated by at least one consumed input byte, and at most
four nested calls happen per byte. -/
def saxFuel (input : List Byte) : Nat := 4 * input.length + 8

def initState (input : List Byte) : PState :=
  { str := input, line := 1, skipSpace := true, allocs := 0, events := [] }

/-- The `setjmp` handler of `json_parse_sax` (json.c:455-461): invoke
`on_error` (when the callback is provided) with the line counter and message
captured at the error point, release every arena block, and return -1. -/
def saxFail (hasOnError : Bool) (est : PState) (msg : String) : SaxResult :=
  { retval := -1
    events := est.events ++ (if hasOnError then [.onError est.line msg] else [])
    allocs := 0 }

/-- `json_parse_sax` (json.c:452-473): initialise the state, skip leading
whitespace, parse one value, and require the end-of-input sentinel. -/
def json_parse_sax (hasOnError : Bool) (input : List Byte) : SaxResult :=
  let st := skip_space (initState input)
  match parse_value (saxFuel input) st with
  | .error (est, msg) => saxFail hasOnError est msg
  | .ok (_, st) =>
    match expectTok 0 st with
    | .error (est, msg) => saxFail hasOnError est msg
    | .ok (_, st) => { retval := 0, events := st.events, allocs := st.allocs }

/-- A JSON value tree, as `struct json_value` (json.h:23-49): six variants;
objects keep insertion order and may repeat keys. -/
inductive JValue where
  | null
  | boolean (b : Bool)
  | number (v : NumVal)
  | str (s : List Byte)
  | arr (vs : List JValue)
  | obj (props : List (List Byte × JValue))

/-- An open container of the DOM builder: the current `struct json_node`
chain (json.c:499-549) seen as a stack.  An object frame also carries the
pending key (`ctx->key`). -/
inductive BFrame where
  | arr (vs : List JValue)
  | obj (props : List (List Byte × JValue)) (key : Option (List Byte))

/-- `on_node` (json.c:499-549): attach a finished value to the innermost open
container (append, for objects consuming the pending key), or make it the
root when no container is open. -/
def pushVal (v : JValue) : List BFrame × Option JValue → List BFrame × Option JValue
  | ([], _) => ([], some v)
  | (BFrame.arr vs :: stk, r) => (BFrame.arr (vs ++ [v]) :: stk, r)
  | (BFrame.obj ps (some k) :: stk, r) => (BFrame.obj (ps ++ [(k, v)]) none :: stk, r)
  | (BFrame.obj ps none :: stk, r) => (BFrame.obj ps none :: stk, r)

/-- One step of the DOM-building callback consumer (json.c:551-637).  In the
C code a container node is linked into its parent at its start event and
filled in place; attaching the completed container at its end event builds
the same tree, because siblings that follow are appended after it.  The
fall-through cases for mismatched end/key events are unreachable on traces
the parser produces (the C code asserts there). -/
def buildStep : List BFrame × Option JValue → JEvent → List BFrame × Option JValue
  | acc, .onNull => pushVal .null acc
  | acc, .onBoolean b => pushVal (.boolean b) acc
  | acc, .onNumber v => pushVal (.number v) acc
  | acc, .onString s => pushVal (.str s) acc
  | (stk, r), .onArrayStart => (BFrame.arr [] :: stk, r)
  | (BFrame.arr vs :: stk, r), .onArrayEnd => pushVal (.arr vs) (stk, r)
  | (BFrame.obj ps _ :: stk, r), .onKey key => (BFrame.obj ps (some key) :: stk, r)
  | (BFrame.obj ps _ :: stk, r), .onObjectEnd => pushVal (.obj ps) (stk, r)
  | acc, _ => acc

/-- `json_parse_dom` (json.c:639-671): run the SAX parse with the DOM
callback set (which forwards errors to the caller's handler, so `on_error`
is provided) and return the root value, or `NULL` (`none`) when the parse
failed. -/
def json_parse_dom (input : List Byte) : Option JValue :=
  let r := json_parse_sax true input
  if r.retval = 0 then (r.events.foldl buildStep ([], none)).2 else none

mutual

/-- Traces of callback events that one `parse_value` call may produce: a
single scalar event, or a properly bracketed container whose children are
themselves value traces in source order. -/
inductive VTrace : List JEvent → Prop
  | null : VTrace [.onNull]
  | boolean (b : Bool) : VTrace [.onBoolean b]
  | number (v : NumVal) : VTrace [.onNumber v]
  | str (s : List Byte) : VTrace [.onString s]
  | arr (ts : List JEvent) : ATrace ts → VTrace (.onArrayStart :: ts ++ [.onArrayEnd])
  | obj (ts : List JEvent) : OTrace ts → VTrace (.onObjectStart :: ts ++ [.onObjectEnd])

/-- Concatenation of zero or more value traces: the children of an array,
in source order. -/
inductive ATrace : List JEvent → Prop
  | nil : ATrace []
  | cons (t ts : List JEvent) : VTrace t → ATrace ts → ATrace (t ++ ts)

/-- The members of an object: each `onKey` immediately followed by the trace
of its value, in source order. -/
inductive OTrace : List JEvent → Prop
  | nil : OTrace []
  | cons (k : List Byte) (t ts : List JEvent) : VTrace t → OTrace ts →
      OTrace (.onKey k :: t ++ ts)

end

/-- The number of line breaks in a byte sequence, counting each LF once and
each CR once, except that a CR immediately followed by LF counts exactly once
for the pair (the convention of `skip_space`, json.c:37-47): here the CR of a
CR-LF pair contributes 0 and the LF contributes the pair's single count. -/
def newlineCount : List Byte → Nat
  | [] => 0
  | c :: rest =>
    newlineCount rest +
      (if c == 10 then 1 else if c == 13 && rest.headD 0 != 10 then 1 else 0)

/-- The shape of input that keyword matching accepts: each keyword character
followed by a (possibly empty) whitespace run, one run per character (the
run after a character is what `consume`'s whitespace skipping eats). -/
def kwInterleave : List Byte → List (List Byte) → List Byte
  | [], _ => []
  | c :: cs, [] => c :: kwInterleave cs []
  | c :: cs, w :: wss => c :: (w ++ kwInterleave cs wss)

/-! ## Basic lemmas about the scanner -/

theorem newlineCount_cons10 (x : List Byte) :
    newlineCount (10 :: x) = newlineCount x + 1 := by
  simp [newlineCount]

theorem newlineCount_cons13_cons10 (x : List Byte) :
    newlineCount (13 :: 10 :: x) = newlineCount x + 1 := by
  simp [newlineCount]

theorem newlineCount_cons13 (x : List Byte) (hx : x.headD 0 ≠ 10) :
    newlineCount (13 :: x) = newlineCount x + 1 := by
  have hb : (x.headD 0 != 10) = true := by simpa [bne_iff_ne] using hx
  rw [show newlineCount (13 :: x)
      = newlineCount x +
        (if ((13 : Byte) == 10) then 1
         else if ((13 : Byte) == 13 && x.headD 0 != 10) then 1 else 0) from rfl]
  rw [hb]
  norm_num

theorem newlineCount_other (c : Byte) (x : List Byte) (hc10 : c ≠ 10) (hc13 : c ≠ 13) :
    newlineCount (c :: x) = newlineCount x := by
  simp [newlineCount, hc10, hc13]

theorem skipSpaceGo_eq (s : List Byte) (line : Nat) :
    skipSpaceGo s line =
      (s.dropWhile isWsByte, line + newlineCount (s.takeWhile isWsByte)) := by
  induction s, line using skipSpaceGo.induct with
  | case1 rest line ih =>
    rw [show skipSpaceGo (13 :: 10 :: rest) line = skipSpaceGo rest (line + 1) from rfl, ih]
    have h1 : List.takeWhile isWsByte (13 :: 10 :: rest)
        = 13 :: 10 :: List.takeWhile isWsByte rest := by
      simp [List.takeWhile, isWsByte]
    have h2 : List.dropWhile isWsByte (13 :: 10 :: rest) = List.dropWhile isWsByte rest := by
      simp [List.dropWhile, isWsByte]
    rw [h1, h2, Prod.mk.injEq]
    refine ⟨rfl, ?_⟩
    rw [newlineCount_cons13_cons10]
    omega
  | case2 rest line h ih =>
    have hstep : skipSpaceGo (13 :: rest) line = skipSpaceGo rest (line + 1) := by
      rcases rest with _ | ⟨c, t⟩
      · rfl
      · have hc : c ≠ 10 := fun hc => h t (by rw [hc])
        simp [skipSpaceGo, hc]
    rw [hstep, ih]
    have hh : (rest.takeWhile isWsByte).headD 0 ≠ 10 := by
      rcases rest with _ | ⟨c, t⟩
      · simp
      · have hc : c ≠ 10 := fun hc => h t (by rw [hc])
        by_cases hw : isWsByte c
        · simp [List.takeWhile, hw, hc]
        · simp [List.takeWhile, hw]
    have h1 : List.takeWhile isWsByte (13 :: rest)
        = 13 :: List.takeWhile isWsByte rest := by
      simp [List.takeWhile, isWsByte]
    have h2 : List.dropWhile isWsByte (13 :: rest) = List.dropWhile isWsByte rest := by
      simp [List.dropWhile, isWsByte]
    rw [h1, h2, Prod.mk.injEq]
    refine ⟨rfl, ?_⟩
    rw [newlineCount_cons13 _ hh]
    omega
  | case3 rest line ih =>
    rw [show skipSpaceGo (10 :: rest) line = skipSpaceGo rest (line + 1) from rfl, ih]
    have h1 : List.takeWhile isWsByte (10 :: rest)
        = 10 :: List.takeWhile isWsByte rest := by
      simp [List.takeWhile, isWsByte]
    have h2 : List.dropWhile isWsByte (10 :: rest) = List.dropWhile isWsByte rest := by
      simp [List.dropWhile, isWsByte]
    rw [h1, h2, Prod.mk.injEq]
    refine ⟨rfl, ?_⟩
    rw [newlineCount_cons10]
    omega
  | case4 rest line ih =>
    rw [show skipSpaceGo (9 :: rest) line = skipSpaceGo rest line from rfl, ih]
    have h1 : List.takeWhile isWsByte (9 :: rest)
        = 9 :: List.takeWhile isWsByte rest := by
      simp [List.takeWhile, isWsByte]
    have h2 : List.dropWhile isWsByte (9 :: rest) = List.dropWhile isWsByte rest := by
      simp [List.dropWhile, isWsByte]
    rw [h1, h2, Prod.mk.injEq]
    refine ⟨rfl, ?_⟩
    rw [newlineCount_other 9 _ (by norm_num) (by norm_num)]
  | case5 rest line ih =>
    rw [show skipSpaceGo (32 :: rest) line = skipSpaceGo rest line from rfl, ih]
    have h1 : List.takeWhile isWsByte (32 :: rest)
        = 32 :: List.takeWhile isWsByte rest := by
      simp [List.takeWhile, isWsByte]
    have h2 : List.dropWhile isWsByte (32 :: rest) = List.dropWhile isWsByte rest := by
      simp [List.dropWhile, isWsByte]
    rw [h1, h2, Prod.mk.injEq]
    refine ⟨rfl, ?_⟩
    rw [newlineCount_other 32 _ (by norm_num) (by norm_num)]
  | case6 s line h1 h2 h3 h4 h5 =>
    rcases s with _ | ⟨c, t⟩
    · simp [skipSpaceGo, newlineCount]
    · have hc13 : c ≠ 13 := fun hc => h2 t (by rw [hc])
      have hc10 : c ≠ 10 := fun hc => h3 t (by rw [hc])
      have hc9 : c ≠ 9 := fun hc => h4 t (by rw [hc])
      have hc32 : c ≠ 32 := fun hc => h5 t (by rw [hc])
      have hw : isWsByte c = false := by
        simp [isWsByte, hc13, hc10, hc9, hc32]
      have hstep : skipSpaceGo (c :: t) line = (c :: t, line) := by
        simp [skipSpaceGo, hc13, hc10, hc9, hc32]
      rw [hstep]
      simp [List.takeWhile, List.dropWhile, hw, newlineCount]

theorem dropWhile_ws_append (ws rest : List Byte)
    (hws : ∀ c ∈ ws, isWsByte c = true) (hr : isWsByte (rest.headD 0) = false) :
    List.dropWhile isWsByte (ws ++ rest) = rest := by
  induction ws with
  | nil =>
    cases rest with
    | nil => rfl
    | cons r t =>
      have hr' : isWsByte r = false := by simpa using hr
      simp [List.dropWhile, hr']
  | cons c cs ih =>
    have hc : isWsByte c = true := hws c (List.mem_cons_self _ _)
    simp [List.dropWhile, hc]
    exact ih (fun d hd => hws d (List.mem_cons_of_mem _ hd))

theorem takeWhile_ws_append (ws rest : List Byte)
    (hws : ∀ c ∈ ws, isWsByte c = true) (hr : isWsByte (rest.headD 0) = false) :
    List.takeWhile isWsByte (ws ++ rest) = ws := by
  induction ws with
  | nil =>
    cases rest with
    | nil => rfl
    | cons r t =>
      have hr' : isWsByte r = false := by simpa using hr
      simp [List.takeWhile, hr']
  | cons c cs ih =>
    have hc : isWsByte c = true := hws c (List.mem_cons_self _ _)
    simp [List.takeWhile, hc]
    exact ih (fun d hd => hws d (List.mem_cons_of_mem _ hd))

theorem skipSpaceGo_ws_append (ws rest : List Byte) (line : Nat)
    (hws : ∀ c ∈ ws, isWsByte c = true) (hr : isWsByte (rest.headD 0) = false) :
    skipSpaceGo (ws ++ rest) line = (rest, line + newlineCount ws) := by
  rw [skipSpaceGo_eq, dropWhile_ws_append ws rest hws hr, takeWhile_ws_append ws rest hws hr]

/-! ## Callback-trace lemmas: which events each parsing function appends -/

theorem skip_space_events (st : PState) : (skip_space st).events = st.events := rfl

theorem consumeSt_events (st : PState) : ((consumeSt st).2).events = st.events := by
  unfold consumeSt
  dsimp only
  split <;> rfl

theorem consumeSt_allocs (st : PState) : ((consumeSt st).2).allocs = st.allocs := by
  unfold consumeSt
  dsimp only
  split <;> rfl

theorem unexpectedTok_ne_ok {α : Type} (st : PState) (r : α × PState) :
    unexpectedTok st ≠ .ok r := by
  unfold unexpectedTok
  split <;> exact fun hx => Except.noConfusion hx

theorem expectTok_ok_events {ch : Byte} {st : PState} {u : Unit} {st' : PState}
    (h : expectTok ch st = .ok (u, st')) : st'.events = st.events := by
  unfold expectTok at h
  split at h
  · exact absurd h (by simp)
  · split at h
    · simp only [Except.ok.injEq, Prod.mk.injEq] at h
      rw [← h.2]
      exact consumeSt_events st
    · simp only [Except.ok.injEq, Prod.mk.injEq] at h
      rw [← h.2]

theorem parse_hexquad_go_ok_events :
    ∀ (i val : Nat) {st : PState} {v : Nat} {st' : PState},
      parse_hexquad_go i val st = .ok (v, st') → st'.events = st.events := by
  intro i
  induction i with
  | zero =>
    intro val st v st' h
    simp only [parse_hexquad_go, Except.ok.injEq, Prod.mk.injEq] at h
    rw [← h.2]
  | succ i ih =>
    intro val st v st' h
    unfold parse_hexquad_go at h
    split at h
    · exact absurd h (unexpectedTok_ne_ok _ _)
    · have := ih _ h
      rw [this, consumeSt_events]

theorem parse_escaped_char_ok_events {st : PState} {v : Nat} {st' : PState}
    (h : parse_escaped_char st = .ok (v, st')) : st'.events = st.events := by
  unfold parse_escaped_char at h
  cases he : expectTok 92 st with
  | error e => rw [he] at h; exact absurd h (by simp)
  | ok r =>
    obtain ⟨u, st1⟩ := r
    rw [he] at h
    have h1 : st1.events = st.events := expectTok_ok_events he
    dsimp only at h
    split_ifs at h with h34 h92 h47 h98 h102 h110 h114 h116 h117
    all_goals first
      | (simp only [Except.ok.injEq, Prod.mk.injEq] at h
         rw [← h.2, consumeSt_events, h1])
      | (rw [parse_hexquad_go_ok_events 4 0 h, consumeSt_events, h1])
      | (exact absurd h (unexpectedTok_ne_ok _ _))

theorem parse_string_escape_ok_events {st : PState} {cs : List Nat} {st' : PState}
    (h : parse_string_escape st = .ok (cs, st')) : st'.events = st.events := by
  unfold parse_string_escape at h
  cases he : parse_escaped_char st with
  | error e => rw [he] at h; exact absurd h (by simp)
  | ok r =>
    obtain ⟨b0, st1⟩ := r
    rw [he] at h
    have h1 : st1.events = st.events := parse_escaped_char_ok_events he
    dsimp only at h
    split_ifs at h with hhi hbs hlo0
    · cases he2 : parse_escaped_char st1 with
      | error e => rw [he2] at h; exact absurd h (by simp)
      | ok r2 =>
        obtain ⟨b1, st2⟩ := r2
        rw [he2] at h
        have h2 : st2.events = st1.events := parse_escaped_char_ok_events he2
        dsimp only at h
        split_ifs at h
        all_goals
          simp only [Except.ok.injEq, Prod.mk.injEq] at h
          rw [← h.2, h2, h1]
    all_goals
      simp only [Except.ok.injEq, Prod.mk.injEq] at h
      rw [← h.2, h1]

theorem parse_raw_string_go_ok_events :
    ∀ (fuel : Nat) {buf : List Byte} {alloc : Nat} {st : PState}
      {r : List Byte × Nat} {st' : PState},
      parse_raw_string_go fuel buf alloc st = .ok (r, st') → st'.events = st.events := by
  intro fuel
  induction fuel with
  | zero =>
    intro buf alloc st r st' h
    exact absurd h (by simp [parse_raw_string_go])
  | succ fuel ih =>
    intro buf alloc st r st' h
    unfold parse_raw_string_go at h
    split at h
    · simp only [Except.ok.injEq, Prod.mk.injEq] at h
      rw [← h.2]
    · cases hc : (if nextB st == 92 then parse_string_escape st
                  else if iscntrlB (nextB st) then unexpectedTok st
                  else
                    let rr := consumeSt st
                    .ok ([rr.1], rr.2) : PRes (List Nat)) with
      | error e => rw [hc] at h; exact absurd h (by simp)
      | ok rc =>
        obtain ⟨chunk, st1⟩ := rc
        rw [hc] at h
        have h1 : st1.events = st.events := by
          split_ifs at hc with h92 hctl
          · exact parse_string_escape_ok_events hc
          · exact absurd hc (unexpectedTok_ne_ok _ _)
          · simp only [Except.ok.injEq, Prod.mk.injEq] at hc
            rw [← hc.2, consumeSt_events]
        dsimp only at h
        split_ifs at h
        all_goals first
          | exact Except.noConfusion h
          | rw [ih h, h1]

theorem parse_raw_string_ok_events {fuel : Nat} {st : PState} {s : List Byte} {st' : PState}
    (h : parse_raw_string fuel st = .ok (s, st')) : st'.events = st.events := by
  unfold parse_raw_string at h
  cases ha : mem_allocSt 16 st with
  | error e => rw [ha] at h; exact absurd h (by simp)
  | ok ra =>
    obtain ⟨ua, st1⟩ := ra
    rw [ha] at h
    dsimp only at h
    have h1 : st1.events = st.events := by
      unfold mem_allocSt at ha
      split at ha
      · exact absurd ha (by simp)
      · simp only [Except.ok.injEq, Prod.mk.injEq] at ha
        rw [← ha.2]
    cases he : expectTok 34 st1 with
    | error e => rw [he] at h; exact absurd h (by simp)
    | ok re =>
      obtain ⟨ue, st2⟩ := re
      rw [he] at h
      dsimp only at h
      have h2 : st2.events = st1.events := expectTok_ok_events he
      cases hg : parse_raw_string_go fuel [] 16 { st2 with skipSpace := false } with
      | error e => rw [hg] at h; exact absurd h (by simp)
      | ok rg =>
        obtain ⟨⟨buf, al⟩, st3⟩ := rg
        rw [hg] at h
        dsimp only at h
        have h3 := parse_raw_string_go_ok_events fuel hg
        simp only [Except.ok.injEq, Prod.mk.injEq] at h
        rw [← h.2, consumeSt_events]
        show st3.events = st.events
        rw [h3]
        show st2.events = st.events
        rw [h2, h1]

theorem expectList_ok_events :
    ∀ (cs : List Byte) {st : PState} {u : Unit} {st' : PState},
      expectList cs st = .ok (u, st') → st'.events = st.events := by
  intro cs
  induction cs with
  | nil =>
    intro st u st' h
    simp only [expectList, Except.ok.injEq, Prod.mk.injEq] at h
    rw [← h.2]
  | cons c cs ih =>
    intro st u st' h
    unfold expectList at h
    cases he : expectTok c st with
    | error e => rw [he] at h; exact Except.noConfusion h
    | ok re =>
      obtain ⟨ue, st1⟩ := re
      rw [he] at h
      dsimp only at h
      rw [ih h, expectTok_ok_events he]

theorem parse_keyword_ok_events {kw : List Byte} {st : PState} {u : Unit} {st' : PState}
    (h : parse_keyword kw st = .ok (u, st')) : st'.events = st.events := by
  unfold parse_keyword at h
  dsimp only at h
  cases he : expectList kw.tail (consumeSt st).2 with
  | error e => rw [he] at h; exact Except.noConfusion h
  | ok re =>
    obtain ⟨ue, st1⟩ := re
    rw [he] at h
    dsimp only at h
    unfold mem_allocSt at h
    split at h
    · exact Except.noConfusion h
    · simp only [Except.ok.injEq, Prod.mk.injEq] at h
      rw [← h.2]
      show st1.events = st.events
      rw [expectList_ok_events _ he, consumeSt_events]

theorem skipDigits_events :
    ∀ (fuel : Nat) (st : PState), (skipDigits fuel st).events = st.events := by
  intro fuel
  induction fuel with
  | zero => intro st; rfl
  | succ fuel ih =>
    intro st
    unfold skipDigits
    split
    · rw [ih, consumeSt_events]
    · rfl

theorem parse_number_ok_events {fuel : Nat} {st : PState} {u : Unit} {st' : PState}
    (h : parse_number fuel st = .ok (u, st')) :
    ∃ v : NumVal, st'.events = st.events ++ [JEvent.onNumber v] := by
  unfold parse_number at h
  dsimp only at h
  set st0 := if nextB st == 45 then (consumeSt st).2 else st with hst0
  have h0 : st0.events = st.events := by
    rw [hst0]; split
    · exact consumeSt_events st
    · rfl
  split at h
  · exact absurd h (unexpectedTok_ne_ok _ _)
  · set st1 := if (consumeSt st0).1 != 48 then skipDigits fuel (consumeSt st0).2
        else (consumeSt st0).2 with hst1
    have h1 : st1.events = st.events := by
      rw [hst1]; split
      · rw [skipDigits_events, consumeSt_events, h0]
      · rw [consumeSt_events, h0]
    cases hf : (if nextB st1 == 46 then
                  let st := (consumeSt st1).2
                  if !isdigitB (nextB st) then unexpectedTok st
                  else .ok ((), skipDigits fuel st)
                else .ok ((), st1) : PRes Unit) with
    | error e => rw [hf] at h; exact Except.noConfusion h
    | ok rf =>
      obtain ⟨uf, st2⟩ := rf
      rw [hf] at h
      have h2 : st2.events = st.events := by
        dsimp only at hf
        split_ifs at hf with hdot hnd
        · exact absurd hf (unexpectedTok_ne_ok _ _)
        · simp only [Except.ok.injEq, Prod.mk.injEq] at hf
          rw [← hf.2, skipDigits_events, consumeSt_events, h1]
        · simp only [Except.ok.injEq, Prod.mk.injEq] at hf
          rw [← hf.2, h1]
      dsimp only at h
      cases hee : (if toLowerB (nextB st2) == 101 then
                    let st := (consumeSt st2).2
                    let st := if nextB st == 43 || nextB st == 45 then (consumeSt st).2 else st
                    if !isdigitB (nextB st) then unexpectedTok st
                    else .ok ((), skipDigits fuel st)
                  else .ok ((), st2) : PRes Unit) with
    | error e => rw [hee] at h; exact Except.noConfusion h
    | ok ree =>
      obtain ⟨uee, st3⟩ := ree
      rw [hee] at h
      have h3 : st3.events = st.events := by
        dsimp only at hee
        split_ifs at hee with hexp hsgn hnd2
        · exact absurd hee (unexpectedTok_ne_ok _ _)
        · simp only [Except.ok.injEq, Prod.mk.injEq] at hee
          rw [← hee.2, skipDigits_events, consumeSt_events, consumeSt_events, h2]
        · exact absurd hee (unexpectedTok_ne_ok _ _)
        · simp only [Except.ok.injEq, Prod.mk.injEq] at hee
          rw [← hee.2, skipDigits_events, consumeSt_events, h2]
        · simp only [Except.ok.injEq, Prod.mk.injEq] at hee
          rw [← hee.2, h2]
      dsimp only at h
      split at h
      · exact Except.noConfusion h
      · rename_i v hv
        simp only [Except.ok.injEq, Prod.mk.injEq] at h
        refine ⟨v, ?_⟩
        rw [← h.2]
        show (emit (JEvent.onNumber v) st3).events = st.events ++ [JEvent.onNumber v]
        unfold emit
        rw [h3]

/-- Combined specification of the recursive parsers, by induction on fuel:
every successful call appends a well-bracketed event segment to the trace
(`VTrace` for one value; `OTrace`/`ATrace` for the member/element loops). -/
theorem parse_trace_spec : ∀ fuel : Nat,
    (∀ (st : PState) (u : Unit) (st' : PState), parse_value fuel st = .ok (u, st') →
        ∃ t, st'.events = st.events ++ t ∧ VTrace t) ∧
    (∀ (st : PState) (u : Unit) (st' : PState), parse_object fuel st = .ok (u, st') →
        ∃ ts, st'.events = st.events ++ (.onObjectStart :: ts ++ [.onObjectEnd]) ∧ OTrace ts) ∧
    (∀ (st : PState) (u : Unit) (st' : PState), parse_object_loop fuel st = .ok (u, st') →
        ∃ ts, st'.events = st.events ++ ts ∧ OTrace ts) ∧
    (∀ (st : PState) (u : Unit) (st' : PState), parse_array fuel st = .ok (u, st') →
        ∃ ts, st'.events = st.events ++ (.onArrayStart :: ts ++ [.onArrayEnd]) ∧ ATrace ts) ∧
    (∀ (st : PState) (u : Unit) (st' : PState), parse_array_loop fuel st = .ok (u, st') →
        ∃ ts, st'.events = st.events ++ ts ∧ ATrace ts) := by
  intro fuel
  induction fuel with
  | zero =>
    refine ⟨?_, ?_, ?_, ?_, ?_⟩ <;> intro st u st' h <;> exact Except.noConfusion h
  | succ fuel ih =>
    obtain ⟨ihv, iho, ihol, iha, ihal⟩ := ih
    refine ⟨?_, ?_, ?_, ?_, ?_⟩
    · -- parse_value
      intro st u st' h
      unfold parse_value at h
      dsimp only at h
      split_ifs at h with h123 h91 h34 hnum ht hf hn
      · obtain ⟨ts, hts, hot⟩ := iho st u st' h
        exact ⟨_, hts, VTrace.obj ts hot⟩
      · obtain ⟨ts, hts, hat⟩ := iha st u st' h
        exact ⟨_, hts, VTrace.arr ts hat⟩
      · cases hrs : parse_raw_string fuel st with
        | error e => rw [hrs] at h; exact Except.noConfusion h
        | ok r =>
          obtain ⟨s, st1⟩ := r
          rw [hrs] at h
          dsimp only at h
          simp only [Except.ok.injEq, Prod.mk.injEq] at h
          refine ⟨[.onString s], ?_, VTrace.str s⟩
          rw [← h.2]
          show st1.events ++ [JEvent.onString s] = st.events ++ [JEvent.onString s]
          rw [parse_raw_string_ok_events hrs]
      · obtain ⟨v, hv⟩ := parse_number_ok_events h
        exact ⟨[.onNumber v], hv, VTrace.number v⟩
      · cases hk : parse_keyword [116, 114, 117, 101] st with
        | error e => rw [hk] at h; exact Except.noConfusion h
        | ok r =>
          obtain ⟨uk, st1⟩ := r
          rw [hk] at h
          dsimp only at h
          simp only [Except.ok.injEq, Prod.mk.injEq] at h
          refine ⟨[.onBoolean true], ?_, VTrace.boolean true⟩
          rw [← h.2]
          show st1.events ++ [JEvent.onBoolean true] = st.events ++ [JEvent.onBoolean true]
          rw [parse_keyword_ok_events hk]
      · cases hk : parse_keyword [102, 97, 108, 115, 101] st with
        | error e => rw [hk] at h; exact Except.noConfusion h
        | ok r =>
          obtain ⟨uk, st1⟩ := r
          rw [hk] at h
          dsimp only at h
          simp only [Except.ok.injEq, Prod.mk.injEq] at h
          refine ⟨[.onBoolean false], ?_, VTrace.boolean false⟩
          rw [← h.2]
          show st1.events ++ [JEvent.onBoolean false] = st.events ++ [JEvent.onBoolean false]
          rw [parse_keyword_ok_events hk]
      · cases hk : parse_keyword [110, 117, 108, 108] st with
        | error e => rw [hk] at h; exact Except.noConfusion h
        | ok r =>
          obtain ⟨uk, st1⟩ := r
          rw [hk] at h
          dsimp only at h
          simp only [Except.ok.injEq, Prod.mk.injEq] at h
          refine ⟨[.onNull], ?_, VTrace.null⟩
          rw [← h.2]
          show st1.events ++ [JEvent.onNull] = st.events ++ [JEvent.onNull]
          rw [parse_keyword_ok_events hk]
      · exact absurd h (unexpectedTok_ne_ok _ _)
    · -- parse_object
      intro st u st' h
      unfold parse_object at h
      cases hex : expectTok 123 st with
      | error e => rw [hex] at h; exact Except.noConfusion h
      | ok r =>
        obtain ⟨u1, st1⟩ := r
        rw [hex] at h
        dsimp only at h
        have hev1 : st1.events = st.events := expectTok_ok_events hex
        split_ifs at h with hend
        · simp only [Except.ok.injEq, Prod.mk.injEq] at h
          refine ⟨[], ?_, OTrace.nil⟩
          rw [← h.2]
          show ((consumeSt (emit .onObjectStart st1)).2).events ++ [JEvent.onObjectEnd] = _
          rw [consumeSt_events]
          show st1.events ++ [JEvent.onObjectStart] ++ [JEvent.onObjectEnd] = _
          rw [hev1]
          simp
        · cases hloop : parse_object_loop fuel (emit .onObjectStart st1) with
          | error e => rw [hloop] at h; exact Except.noConfusion h
          | ok r2 =>
            obtain ⟨u2, st2⟩ := r2
            rw [hloop] at h
            dsimp only at h
            obtain ⟨ts, hts, hot⟩ := ihol _ _ _ hloop
            simp only [Except.ok.injEq, Prod.mk.injEq] at h
            refine ⟨ts, ?_, hot⟩
            rw [← h.2]
            show ((consumeSt st2).2).events ++ [JEvent.onObjectEnd] = _
            rw [consumeSt_events, hts]
            show (emit .onObjectStart st1).events ++ ts ++ [JEvent.onObjectEnd] = _
            show st1.events ++ [JEvent.onObjectStart] ++ ts ++ [JEvent.onObjectEnd] = _
            rw [hev1]
            simp
    · -- parse_object_loop
      intro st u st' h
      unfold parse_object_loop at h
      cases hname : parse_raw_string fuel st with
      | error e => rw [hname] at h; exact Except.noConfusion h
      | ok r =>
        obtain ⟨name, st1⟩ := r
        rw [hname] at h
        dsimp only at h
        have hev1 : st1.events = st.events := parse_raw_string_ok_events hname
        cases hcolon : expectTok 58 (emit (.onKey name) st1) with
        | error e => rw [hcolon] at h; exact Except.noConfusion h
        | ok r2 =>
          obtain ⟨u2, st2⟩ := r2
          rw [hcolon] at h
          dsimp only at h
          have hev2 : st2.events = st1.events ++ [JEvent.onKey name] :=
            expectTok_ok_events hcolon
          cases hval : parse_value fuel st2 with
          | error e => rw [hval] at h; exact Except.noConfusion h
          | ok r3 =>
            obtain ⟨u3, st3⟩ := r3
            rw [hval] at h
            dsimp only at h
            obtain ⟨t, hts, hvt⟩ := ihv _ _ _ hval
            split_ifs at h with hbr
            · simp only [Except.ok.injEq, Prod.mk.injEq] at h
              have hOT : OTrace (.onKey name :: t) := by
                have := OTrace.cons name t [] hvt OTrace.nil
                rwa [List.append_nil] at this
              refine ⟨.onKey name :: t, ?_, hOT⟩
              rw [← h.2, hts, hev2, hev1]
              simp
            · cases hcomma : expectTok 44 st3 with
              | error e => rw [hcomma] at h; exact Except.noConfusion h
              | ok r4 =>
                obtain ⟨u4, st4⟩ := r4
                rw [hcomma] at h
                dsimp only at h
                have hev4 : st4.events = st3.events := expectTok_ok_events hcomma
                obtain ⟨ts2, hts2, hot2⟩ := ihol _ _ _ h
                refine ⟨.onKey name :: t ++ ts2, ?_, OTrace.cons name t ts2 hvt hot2⟩
                rw [hts2, hev4, hts, hev2, hev1]
                simp
    · -- parse_array
      intro st u st' h
      unfold parse_array at h
      cases hex : expectTok 91 st with
      | error e => rw [hex] at h; exact Except.noConfusion h
      | ok r =>
        obtain ⟨u1, st1⟩ := r
        rw [hex] at h
        dsimp only at h
        have hev1 : st1.events = st.events := expectTok_ok_events hex
        split_ifs at h with hend
        · simp only [Except.ok.injEq, Prod.mk.injEq] at h
          refine ⟨[], ?_, ATrace.nil⟩
          rw [← h.2]
          show ((consumeSt (emit .onArrayStart st1)).2).events ++ [JEvent.onArrayEnd] = _
          rw [consumeSt_events]
          show st1.events ++ [JEvent.onArrayStart] ++ [JEvent.onArrayEnd] = _
          rw [hev1]
          simp
        · cases hloop : parse_array_loop fuel (emit .onArrayStart st1) with
          | error e => rw [hloop] at h; exact Except.noConfusion h
          | ok r2 =>
            obtain ⟨u2, st2⟩ := r2
            rw [hloop] at h
            dsimp only at h
            obtain ⟨ts, hts, hat⟩ := ihal _ _ _ hloop
            simp only [Except.ok.injEq, Prod.mk.injEq] at h
            refine ⟨ts, ?_, hat⟩
            rw [← h.2]
            show ((consumeSt st2).2).events ++ [JEvent.onArrayEnd] = _
            rw [consumeSt_events, hts]
            show st1.events ++ [JEvent.onArrayStart] ++ ts ++ [JEvent.onArrayEnd] = _
            rw [hev1]
            simp
    · -- parse_array_loop
      intro st u st' h
      unfold parse_array_loop at h
      cases hval : parse_value fuel st with
      | error e => rw [hval] at h; exact Except.noConfusion h
      | ok r =>
        obtain ⟨u1, st1⟩ := r
        rw [hval] at h
        dsimp only at h
        obtain ⟨t, hts, hvt⟩ := ihv _ _ _ hval
        split_ifs at h with hbr
        · simp only [Except.ok.injEq, Prod.mk.injEq] at h
          have hAT : ATrace t := by
            have := ATrace.cons t [] hvt ATrace.nil
            rwa [List.append_nil] at this
          refine ⟨t, ?_, hAT⟩
          rw [← h.2, hts]
        · cases hcomma : expectTok 44 st1 with
          | error e => rw [hcomma] at h; exact Except.noConfusion h
          | ok r2 =>
            obtain ⟨u2, st2⟩ := r2
            rw [hcomma] at h
            dsimp only at h
            have hev2 : st2.events = st1.events := expectTok_ok_events hcomma
            obtain ⟨ts2, hts2, hat2⟩ := ihal _ _ _ h
            refine ⟨t ++ ts2, ?_, ATrace.cons t ts2 hvt hat2⟩
            rw [hts2, hev2, hts]
            simp

/-! ## Lemmas about the parse drivers -/

/-- A successful `json_parse_sax` run is exactly: `parse_value` succeeds on
the whitespace-skipped input and leaves the end-of-input sentinel as the next
character. -/
theorem json_parse_sax_ok_iff (hcb : Bool) (input : List Byte) :
    (json_parse_sax hcb input).retval = 0 ↔
      ∃ st', parse_value (saxFuel input) (skip_space (initState input)) = .ok ((), st')
        ∧ nextB st' = 0 := by
  unfold json_parse_sax
  dsimp only
  cases hpv : parse_value (saxFuel input) (skip_space (initState input)) with
  | error e =>
    obtain ⟨est, msg⟩ := e
    dsimp only [saxFail]
    constructor
    · intro hr; exact absurd hr (by norm_num)
    · rintro ⟨st', hok, -⟩
      exact Except.noConfusion hok
  | ok r =>
    obtain ⟨u, st1⟩ := r
    dsimp only
    cases u
    by_cases hz : nextB st1 = 0
    · have hex : expectTok 0 st1 = .ok ((), st1) := by
        simp [expectTok, hz]
      rw [hex]
      dsimp only
      exact ⟨fun _ => ⟨st1, rfl, hz⟩, fun _ => rfl⟩
    · have hex : expectTok 0 st1
          = .error (st1, "unexpected token " ++ prByte (nextB st1) ++ ", expected " ++ prByte 0) := by
        simp [expectTok, hz]
      rw [hex]
      dsimp only [saxFail]
      constructor
      · intro hr; exact absurd hr (by norm_num)
      · rintro ⟨st', hok, hz2⟩
        simp only [Except.ok.injEq, Prod.mk.injEq] at hok
        rw [← hok.2] at hz2
        exact absurd hz2 hz

/-- The failure path of `json_parse_sax`: on error return the arena is empty
and, when the error callback is provided, the last callback invocation is
`on_error` with the line counter at the failure point. -/
theorem json_parse_sax_fail_shape (hcb : Bool) (input : List Byte)
    (hr : (json_parse_sax hcb input).retval = -1) :
    (json_parse_sax hcb input).allocs = 0 ∧
      (hcb = true →
        ∃ l m, (json_parse_sax hcb input).events.getLast? = some (.onError l m)) := by
  unfold json_parse_sax at *
  dsimp only at hr ⊢
  cases hpv : parse_value (saxFuel input) (skip_space (initState input)) with
  | error e =>
    obtain ⟨est, msg⟩ := e
    dsimp only [saxFail]
    refine ⟨rfl, fun hcbt => ⟨est.line, msg, ?_⟩⟩
    rw [hcbt]
    simp
  | ok r =>
    obtain ⟨u, st1⟩ := r
    rw [hpv] at hr
    dsimp only at hr ⊢
    cases hex : expectTok 0 st1 with
    | error e =>
      obtain ⟨est, msg⟩ := e
      dsimp only [saxFail]
      refine ⟨rfl, fun hcbt => ⟨est.line, msg, ?_⟩⟩
      rw [hcbt]
      simp
    | ok r2 =>
      rw [hex] at hr
      obtain ⟨u2, st2⟩ := r2
      dsimp only at hr
      exact absurd hr (by norm_num)

/-- Successful parses produce a single well-bracketed value trace. -/
theorem json_parse_sax_ok_VTrace (hcb : Bool) (input : List Byte)
    (hr : (json_parse_sax hcb input).retval = 0) :
    VTrace (json_parse_sax hcb input).events := by
  unfold json_parse_sax at *
  dsimp only at hr ⊢
  cases hpv : parse_value (saxFuel input) (skip_space (initState input)) with
  | error e =>
    obtain ⟨est, msg⟩ := e
    rw [hpv] at hr
    exact absurd hr (by norm_num [saxFail])
  | ok r =>
    obtain ⟨u, st1⟩ := r
    rw [hpv] at hr
    dsimp only at hr ⊢
    cases hex : expectTok 0 st1 with
    | error e =>
      obtain ⟨est, msg⟩ := e
      rw [hex] at hr
      exact absurd hr (by norm_num [saxFail])
    | ok r2 =>
      obtain ⟨u2, st2⟩ := r2
      dsimp only
      obtain ⟨t, hts, hvt⟩ := (parse_trace_spec (saxFuel input)).1 _ u _ hpv
      have h0 : (skip_space (initState input)).events = [] := rfl
      rw [h0] at hts
      have hst2 : st2.events = t := by
        rw [expectTok_ok_events hex, hts]
        simp
      rw [hst2]
      exact hvt

theorem exists_saxFuel_succ (input : List Byte) : ∃ m, saxFuel input = m + 1 :=
  ⟨4 * input.length + 7, by unfold saxFuel; omega⟩

theorem skip_space_nonws (st : PState) (h : isWsByte (st.str.headD 0) = false) :
    skip_space st = st := by
  unfold skip_space
  rw [show st.str = [] ++ st.str from rfl, skipSpaceGo_ws_append [] st.str st.line
    (by intro c hc; exact absurd hc (List.not_mem_nil c)) (by simpa using h)]
  simp [newlineCount]

theorem consumeSt_cons_ws (c : Byte) (ws tail : List Byte) (st : PState)
    (hst : st.str = c :: (ws ++ tail)) (hws : ∀ d ∈ ws, isWsByte d = true)
    (htl : isWsByte (tail.headD 0) = false) (hss : st.skipSpace = true) :
    consumeSt st = (c, { st with str := tail, line := st.line + newlineCount ws }) := by
  unfold consumeSt nextB
  rw [hst, hss]
  unfold skip_space
  dsimp only [List.headD_cons, List.tail_cons]
  rw [if_pos rfl, skipSpaceGo_ws_append ws tail st.line hws htl]

theorem expectTok_cons_ws (c : Byte) (hc0 : c ≠ 0) (ws tail : List Byte) (st : PState)
    (hst : st.str = c :: (ws ++ tail)) (hws : ∀ d ∈ ws, isWsByte d = true)
    (htl : isWsByte (tail.headD 0) = false) (hss : st.skipSpace = true) :
    expectTok c st = .ok ((), { st with str := tail, line := st.line + newlineCount ws }) := by
  unfold expectTok
  have hnx : nextB st = c := by unfold nextB; rw [hst]; rfl
  rw [hnx]
  simp only [bne_self_eq_false, Bool.false_eq_true, if_false]
  rw [if_pos (by simpa using hc0)]
  rw [consumeSt_cons_ws c ws tail st hst hws htl hss]

theorem parse_value_unexpected (fuel : Nat) (st : PState) (hf : fuel ≠ 0)
    (h123 : nextB st ≠ 123) (h91 : nextB st ≠ 91) (h34 : nextB st ≠ 34)
    (h45 : nextB st ≠ 45) (hdig : isdigitB (nextB st) = false)
    (ht : nextB st ≠ 116) (hfa : nextB st ≠ 102) (hn : nextB st ≠ 110) :
    parse_value fuel st = unexpectedTok st := by
  obtain ⟨m, hm⟩ : ∃ m, fuel = m + 1 := ⟨fuel - 1, by omega⟩
  rw [hm]
  unfold parse_value
  dsimp only
  rw [if_neg (by simpa using h123), if_neg (by simpa using h91), if_neg (by simpa using h34),
    if_neg (by simp [h45, hdig]), if_neg (by simpa using ht), if_neg (by simpa using hfa),
    if_neg (by simpa using hn)]

/-- The return value of `json_parse_sax` does not depend on whether the
`on_error` callback is provided (only the delivered events do). -/
theorem json_parse_sax_retval_indep (a b : Bool) (input : List Byte) :
    (json_parse_sax a input).retval = (json_parse_sax b input).retval := by
  unfold json_parse_sax
  dsimp only
  cases hpv : parse_value (saxFuel input) (skip_space (initState input)) with
  | error e => obtain ⟨est, msg⟩ := e; rfl
  | ok r =>
    obtain ⟨u, st1⟩ := r
    dsimp only
    cases hex : expectTok 0 st1 with
    | error e => obtain ⟨est, msg⟩ := e; rfl
    | ok r2 => obtain ⟨u2, st2⟩ := r2; rfl

/-- The chunk of code points an escape hands to the UTF-8 encoder never
*starts* with an unpaired UTF-16 surrogate: a paired surrogate is combined
above the BMP, and an unmatched high or lone low surrogate in the leading
position is replaced by U+FFFD.  (The *second* entry of a two-entry chunk is
not so protected — see the C3 counterexample.) -/
theorem parse_string_escape_head_not_surrogate {st : PState} {cs : List Nat} {st' : PState}
    {c : Nat} {cs2 : List Nat}
    (h : parse_string_escape st = .ok (cs, st')) (hc : cs = c :: cs2) :
    ¬(0xd800 ≤ c ∧ c ≤ 0xdfff) := by
  subst hc
  unfold parse_string_escape at h
  cases he : parse_escaped_char st with
  | error e => rw [he] at h; exact Except.noConfusion h
  | ok r =>
    obtain ⟨b0, st1⟩ := r
    rw [he] at h
    dsimp only at h
    split_ifs at h with hhi hbs hlo0
    · cases he2 : parse_escaped_char st1 with
      | error e => rw [he2] at h; exact Except.noConfusion h
      | ok r2 =>
        obtain ⟨b1, st2⟩ := r2
        rw [he2] at h
        dsimp only at h
        split_ifs at h with hlo
        · simp only [Except.ok.injEq, Prod.mk.injEq, List.cons.injEq] at h
          obtain ⟨⟨hceq, -⟩, -⟩ := h
          rw [← hceq]
          simp only [Bool.and_eq_true, decide_eq_true_eq] at hhi hlo
          have hsl : b0 <<< 10 = b0 * 1024 := Nat.shiftLeft_eq b0 10
          unfold surrogateCombine
          rw [hsl]
          omega
        · simp only [Except.ok.injEq, Prod.mk.injEq, List.cons.injEq] at h
          obtain ⟨⟨hceq, -⟩, -⟩ := h
          rw [← hceq]
          decide
    · simp only [Except.ok.injEq, Prod.mk.injEq, List.cons.injEq] at h
      obtain ⟨⟨hceq, -⟩, -⟩ := h
      rw [← hceq]
      decide
    · simp only [Except.ok.injEq, Prod.mk.injEq, List.cons.injEq] at h
      obtain ⟨⟨hceq, -⟩, -⟩ := h
      rw [← hceq]
      decide
    · simp only [Except.ok.injEq, Prod.mk.injEq, List.cons.injEq] at h
      obtain ⟨⟨hceq, -⟩, -⟩ := h
      rw [← hceq]
      simp only [Bool.and_eq_true, decide_eq_true_eq] at hhi hlo0
      omega

/-! ## The claims -/

/-- C1 (counterexample): the input `"1 2"` does *not* fail: because
`consume` keeps skipping whitespace while `parse_number` scans digit runs,
the `2` is absorbed into the number token (`strtod` reads only the leading
`1`), so the parse succeeds with the single event `on_number(1)`. -/
theorem C1_counterexample :
    json_parse_sax true [49, 32, 50] =
      { retval := 0, events := [.onNumber ⟨1, 1⟩], allocs := 0 } := by
  decide

/-- C1 (amended): after parsing one top-level value the parse succeeds if
and only if the remaining input (whitespace already consumed by the value
parse) is exactly the end-of-input sentinel; trailing input that the value
parse cannot absorb is a fatal error (e.g. `"1 x"` fails with
"unexpected token 'x'" at the top level).  However, trailing digits
separated only by whitespace from a preceding number are absorbed into that
number token, so inputs like `"1 2"` succeed (see `C1_counterexample`). -/
theorem C1_amended_top_level :
    (∀ (hcb : Bool) (input : List Byte),
      (json_parse_sax hcb input).retval = 0 ↔
        ∃ st', parse_value (saxFuel input) (skip_space (initState input)) = .ok ((), st')
          ∧ nextB st' = 0) ∧
    json_parse_sax true [49, 32, 120] =
      { retval := -1,
        events := [.onNumber ⟨1, 1⟩,
          .onError 1 "unexpected token 'x', expected \\x00"],
        allocs := 0 } :=
  ⟨json_parse_sax_ok_iff, by decide⟩

/-- C3 (counterexample): the replacement-character policy is *not* applied
consistently: in `"\uD800\uD800"` the first unmatched high surrogate becomes
U+FFFD, but the second `\uD800` — read as the candidate low half of a
surrogate pair — is passed through raw, so the unpaired surrogate code unit
0xD800 reaches the UTF-8 encoder and is encoded as the three bytes
ED A0 80. -/
theorem C3_counterexample :
    json_parse_sax true [34, 92, 117, 68, 56, 48, 48, 92, 117, 68, 56, 48, 48, 34] =
      { retval := 0,
        events := [.onString (encode_utf8_char 0xfffd ++ encode_utf8_char 0xd800)],
        allocs := 1 } := by
  decide

/-- C3 (amended): the U+FFFD substitution applies to every escape in the
*leading* position: a `\uXXXX` high surrogate not immediately followed by a
backslash escape decodes to U+FFFD (e.g. `"\uD800x"`), a lone low surrogate
escape decodes to U+FFFD (e.g. `"\uDC00"`), and the first code point of any
chunk handed to the UTF-8 encoder is never an unpaired surrogate; but when a
high-surrogate escape is followed by an escape that is not a low surrogate,
that second escape's value is emitted unchecked, so an unpaired surrogate
*can* reach the encoder in the trailing position (see `C3_counterexample`). -/
theorem C3_amended_surrogate_policy :
    json_parse_sax true [34, 92, 117, 68, 56, 48, 48, 120, 34] =
      { retval := 0, events := [.onString (encode_utf8_char 0xfffd ++ [120])], allocs := 1 } ∧
    json_parse_sax true [34, 92, 117, 68, 67, 48, 48, 34] =
      { retval := 0, events := [.onString (encode_utf8_char 0xfffd)], allocs := 1 } ∧
    (∀ (st : PState) (cs : List Nat) (st' : PState) (c : Nat) (cs2 : List Nat),
      parse_string_escape st = .ok (cs, st') → cs = c :: cs2 →
        ¬(0xd800 ≤ c ∧ c ≤ 0xdfff)) :=
  ⟨by decide, by decide, fun _ _ _ _ _ h hc => parse_string_escape_head_not_surrogate h hc⟩

/-- C3 (witness): the leading-position guarantee applied to a concrete state
decoding the lone escape `\uD800` followed by `x`. -/
theorem C3_amended_surrogate_policy_witness :
    ¬(0xd800 ≤ 0xfffd ∧ (0xfffd : Nat) ≤ 0xdfff) :=
  C3_amended_surrogate_policy.2.2
    { str := [92, 117, 68, 56, 48, 48, 120, 34], line := 1, skipSpace := false,
      allocs := 1, events := [] }
    [0xfffd]
    { str := [120, 34], line := 1, skipSpace := false, allocs := 1, events := [] }
    0xfffd [] (by rfl) rfl

/-- C4: whenever a parse fails (`json_parse_sax` returns -1), the arena's
block list is empty when the call returns, the `on_error` callback (when
provided) has been invoked — it is the last callback of the run, carrying
the line counter at the failure point — and `json_parse_dom` returns NULL
for that input. -/
theorem C4_error_cleanup (hcb : Bool) (input : List Byte)
    (hr : (json_parse_sax hcb input).retval = -1) :
    (json_parse_sax hcb input).allocs = 0 ∧
    (hcb = true →
      ∃ l m, (json_parse_sax hcb input).events.getLast? = some (.onError l m)) ∧
    json_parse_dom input = none := by
  obtain ⟨ha, he⟩ := json_parse_sax_fail_shape hcb input hr
  refine ⟨ha, he, ?_⟩
  unfold json_parse_dom
  have : (json_parse_sax true input).retval = -1 :=
    (json_parse_sax_retval_indep true hcb input).trans hr
  rw [if_neg (by rw [this]; norm_num)]

/-- C4 (witness): the guarantee applied to the failing input `"@"`. -/
theorem C4_error_cleanup_witness :
    (json_parse_sax true [64]).allocs = 0 ∧
    (true = true →
      ∃ l m, (json_parse_sax true [64]).events.getLast? = some (.onError l m)) ∧
    json_parse_dom [64] = none :=
  C4_error_cleanup true [64] (by decide)

/-- C6: a high surrogate paired with an immediately following low surrogate
is combined as `(high <<< 10) + low - 0x35FDC00`, which always lands in
[0x10000, 0x10FFFF]; in particular `𝄞` decodes to the single code
point U+1D11E, whose UTF-8 encoding is exactly the 4 bytes F0 9D 84 9E. -/
theorem C6_surrogate_combine :
    (∀ hi lo : Nat, 0xd800 ≤ hi → hi ≤ 0xdbff → 0xdc00 ≤ lo → lo ≤ 0xdfff →
      0x10000 ≤ surrogateCombine hi lo ∧ surrogateCombine hi lo ≤ 0x10ffff) ∧
    surrogateCombine 0xd834 0xdd1e = 0x1d11e ∧
    json_parse_sax true [34, 92, 117, 68, 56, 51, 52, 92, 117, 68, 68, 49, 69, 34] =
      { retval := 0, events := [.onString (encode_utf8_char 0x1d11e)], allocs := 1 } ∧
    encode_utf8_char 0x1d11e = [0xf0, 0x9d, 0x84, 0x9e] := by
  refine ⟨?_, by decide, by decide, by decide⟩
  intro hi lo h1 h2 h3 h4
  unfold surrogateCombine
  have hsl : hi <<< 10 = hi * 1024 := by rw [Nat.shiftLeft_eq]
  rw [hsl]
  omega

/-- C6 (witness): the range bound applied to the concrete pair D834/DD1E. -/
theorem C6_surrogate_combine_witness :
    0x10000 ≤ surrogateCombine 0xd834 0xdd1e ∧ surrogateCombine 0xd834 0xdd1e ≤ 0x10ffff :=
  C6_surrogate_combine.1 0xd834 0xdd1e (by decide) (by decide) (by decide) (by decide)

/-- C7: parsing `-1.5e+10` succeeds and produces the number -1.5e10 (the
model's exact fraction -150000000000/10); parsing `0` produces the number 0;
the leading-zero input `01` is rejected (the number grammar stops after the
lone `0`, and the trailing `1` then fails the top-level end-of-input check). -/
theorem C7_numeric_roundtrip :
    json_parse_dom [45, 49, 46, 53, 101, 43, 49, 48] = some (.number ⟨-150000000000, 10⟩) ∧
    NumVal.toQ ⟨-150000000000, 10⟩ = -15000000000 ∧
    json_parse_dom [48] = some (.number ⟨0, 1⟩) ∧
    NumVal.toQ ⟨0, 1⟩ = 0 ∧
    json_parse_dom [48, 49] = none ∧
    (json_parse_sax true [48, 49]).retval = -1 :=
  ⟨by rfl, by norm_num [NumVal.toQ], by rfl, by norm_num [NumVal.toQ], by rfl, by decide⟩

/-- C5: parsing `{"foo":[1,2]}` in event mode produces exactly the sequence
object-start, key("foo"), array-start, number(1), number(2), array-end,
object-end, with no other value/structure callbacks; and in general every
successful parse's callback trace is a well-bracketed pre-order value trace
(`VTrace`): each `on_key` immediately precedes its value's events, each
container's start event precedes all child events, which precede the
matching end event, and siblings appear in source order. -/
theorem C5_event_order :
    (json_parse_sax true [123, 34, 102, 111, 111, 34, 58, 91, 49, 44, 50, 93, 125]).retval = 0 ∧
    (json_parse_sax true [123, 34, 102, 111, 111, 34, 58, 91, 49, 44, 50, 93, 125]).events =
      [.onObjectStart, .onKey [102, 111, 111], .onArrayStart, .onNumber ⟨1, 1⟩,
       .onNumber ⟨2, 1⟩, .onArrayEnd, .onObjectEnd] ∧
    (∀ (hcb : Bool) (input : List Byte), (json_parse_sax hcb input).retval = 0 →
      VTrace (json_parse_sax hcb input).events) :=
  ⟨by decide, by decide, json_parse_sax_ok_VTrace⟩

/-- C5 (witness): the well-bracketing guarantee applied to the concrete
successful parse of `0`. -/
theorem C5_event_order_witness : VTrace (json_parse_sax true [48]).events :=
  C5_event_order.2.2 true [48] (by decide)

/-- C8 (counterexample): `mem_realloc` on a non-NULL block does *not*
overflow-check: for a request of `SIZE_MAX` bytes the `size_t` sum
`sizeof(struct alloc) + size` wraps to 15 and is handed to `realloc` instead
of being rejected, even though the true byte count is not representable. -/
theorem C8_counterexample :
    mem_realloc_request false SIZE_MAX = some 15 ∧
    SIZE_MAX < structAllocSize + SIZE_MAX := by
  constructor
  · decide
  · decide

/-- C8 (amended): `mem_alloc` — and therefore `mem_realloc` of a NULL
pointer — rejects any request whose total byte count exceeds `SIZE_MAX`
before calling the underlying allocator; `mem_realloc` of a live block
performs no check itself, but each in-parser growth site bounds the request
first (the string buffer grows 150% only under the guard
`alloc ≤ SIZE_MAX / 3`; the array value list appends pointer-sized 8-byte
entries and the object property list two-pointer 16-byte entries, both only
while the element count is below `INT_MAX / sizeof(void *)`), so the
unchecked addition never wraps on any of those requests. -/
theorem C8_amended_overflow_checks :
    (∀ size : Nat, (mem_alloc_request size).isSome = true ↔
        structAllocSize + size ≤ SIZE_MAX) ∧
    (∀ size : Nat, mem_realloc_request true size = mem_alloc_request size) ∧
    (∀ alloc : Nat, alloc ≤ SIZE_MAX / 3 →
        mem_realloc_request false ((alloc * 3) >>> 1)
          = some (structAllocSize + ((alloc * 3) >>> 1))) ∧
    (∀ n : Nat, n ≤ INT_MAX / ptrSize → n ≠ INT_MAX / ptrSize →
        mem_realloc_request false (ptrSize * (n + 1))
          = some (structAllocSize + ptrSize * (n + 1))) ∧
    (∀ n : Nat, n ≤ INT_MAX / ptrSize → n ≠ INT_MAX / ptrSize →
        mem_realloc_request false (2 * ptrSize * (n + 1))
          = some (structAllocSize + 2 * ptrSize * (n + 1))) := by
  refine ⟨?_, fun _ => rfl, ?_, ?_, ?_⟩
  · intro size
    unfold mem_alloc_request structAllocSize SIZE_MAX
    split_ifs with hgt
    · simp only [Option.isSome_none, Bool.false_eq_true, false_iff]
      omega
    · simp only [Option.isSome_some, true_iff]
      omega
  · intro alloc halloc
    have hsr : (alloc * 3) >>> 1 = alloc * 3 / 2 := by
      rw [Nat.shiftRight_eq_div_pow]
    show some ((structAllocSize + ((alloc * 3) >>> 1)) % 2 ^ 64)
        = some (structAllocSize + ((alloc * 3) >>> 1))
    rw [Nat.mod_eq_of_lt]
    rw [hsr]
    unfold structAllocSize
    unfold SIZE_MAX at halloc
    omega
  · intro n hle hne
    show some ((structAllocSize + ptrSize * (n + 1)) % 2 ^ 64)
        = some (structAllocSize + ptrSize * (n + 1))
    rw [Nat.mod_eq_of_lt]
    unfold structAllocSize ptrSize
    unfold INT_MAX ptrSize at hle hne
    omega
  · intro n hle hne
    show some ((structAllocSize + 2 * ptrSize * (n + 1)) % 2 ^ 64)
        = some (structAllocSize + 2 * ptrSize * (n + 1))
    rw [Nat.mod_eq_of_lt]
    unfold structAllocSize ptrSize
    unfold INT_MAX ptrSize at hle hne
    omega

/-- C8 (witness): the guarded growth facts at concrete sizes (the first
string-buffer growth 16 → 24, the first array append, and the first
object-property append). -/
theorem C8_amended_overflow_checks_witness :
    mem_realloc_request false ((16 * 3) >>> 1) = some (structAllocSize + ((16 * 3) >>> 1)) ∧
    mem_realloc_request false (ptrSize * (0 + 1)) = some (structAllocSize + ptrSize * (0 + 1)) ∧
    mem_realloc_request false (2 * ptrSize * (0 + 1))
      = some (structAllocSize + 2 * ptrSize * (0 + 1)) :=
  ⟨C8_amended_overflow_checks.2.2.1 16 (by decide),
   C8_amended_overflow_checks.2.2.2.1 0 (by decide) (by decide),
   C8_amended_overflow_checks.2.2.2.2 0 (by decide) (by decide)⟩

/-- C9: `skip_space` consumes exactly the maximal whitespace run and adds to
the line counter one count per LF and per CR, with a CR immediately followed
by LF counting once for the pair (`newlineCount`); the parse starts at line
1 and the line reported to `on_error` is the counter at the failure point:
after `\n\r\n\r` the offending `@` is reported on line 4. -/
theorem C9_line_counting :
    (∀ (s : List Byte) (line : Nat),
      skipSpaceGo s line =
        (s.dropWhile isWsByte, line + newlineCount (s.takeWhile isWsByte))) ∧
    json_parse_sax true [10, 13, 10, 13, 64] =
      { retval := -1, events := [.onError 4 "unexpected token '@'"], allocs := 0 } :=
  ⟨skipSpaceGo_eq, by decide⟩

/-- C10: the skippable inter-token whitespace set is exactly space, tab,
carriage return and line feed — `skip_space` consumes a leading character if
and only if it is one of those four — and any other character that cannot
begin a JSON value is a fatal "unexpected token" error at the value
position rather than being skipped; in particular form feed (0x0C) and
vertical tab (0x0B) fail that way. -/
theorem C10_whitespace_set :
    (∀ (c : Byte) (s : List Byte) (line : Nat), (c = 9 ∨ c = 10 ∨ c = 13 ∨ c = 32) →
      ((skipSpaceGo (c :: s) line).1).length ≤ s.length) ∧
    (∀ (c : Byte) (s : List Byte) (line : Nat), ¬(c = 9 ∨ c = 10 ∨ c = 13 ∨ c = 32) →
      skipSpaceGo (c :: s) line = (c :: s, line)) ∧
    (∀ (c : Byte) (rest : List Byte),
      isWsByte c = false → c ≠ 0 → c ≠ 123 → c ≠ 91 → c ≠ 34 → c ≠ 45 →
      isdigitB c = false → c ≠ 116 → c ≠ 102 → c ≠ 110 →
      json_parse_sax true (c :: rest) =
        { retval := -1, events := [.onError 1 ("unexpected token " ++ prByte c)],
          allocs := 0 }) ∧
    json_parse_sax true [12] =
      { retval := -1, events := [.onError 1 "unexpected token \x5cx0c"], allocs := 0 } ∧
    json_parse_sax true [11] =
      { retval := -1, events := [.onError 1 "unexpected token \x5cx0b"], allocs := 0 } := by
  refine ⟨?_, ?_, ?_, by decide, by decide⟩
  · intro c s line hc
    have hw : isWsByte c = true := by
      rcases hc with h | h | h | h <;> subst h <;> decide
    rw [skipSpaceGo_eq]
    have hd : List.dropWhile isWsByte (c :: s) = List.dropWhile isWsByte s := by
      simp [List.dropWhile, hw]
    dsimp only
    rw [hd]
    exact (List.dropWhile_sublist _).length_le
  · intro c s line hc
    push_neg at hc
    have hw : isWsByte c = false := by
      simp [isWsByte, hc.1, hc.2.1, hc.2.2.1, hc.2.2.2]
    rw [skipSpaceGo_eq]
    have hd : List.dropWhile isWsByte (c :: s) = c :: s := by
      simp [List.dropWhile, hw]
    have ht : List.takeWhile isWsByte (c :: s) = [] := by
      simp [List.takeWhile, hw]
    rw [hd, ht]
    simp [newlineCount]
  · intro c rest hws hc0 hc123 hc91 hc34 hc45 hdig hct hcf hcn
    unfold json_parse_sax
    dsimp only
    rw [skip_space_nonws (initState (c :: rest)) hws]
    rw [parse_value_unexpected (saxFuel (c :: rest)) (initState (c :: rest))
      (by unfold saxFuel; omega) hc123 hc91 hc34 hc45 hdig hct hcf hcn]
    have hu : unexpectedTok (initState (c :: rest))
        = (.error (initState (c :: rest), "unexpected token " ++ prByte c)
            : PRes Unit) := by
      unfold unexpectedTok
      rw [if_neg (by simpa using hc0)]
      rfl
    rw [hu]
    dsimp only [saxFail]
    rfl

theorem expectTok_err (ch : Byte) (st : PState) (hne : nextB st ≠ ch) :
    expectTok ch st
      = .error (st, "unexpected token " ++ prByte (nextB st) ++ ", expected " ++ prByte ch) := by
  unfold expectTok
  rw [if_pos (by simpa using hne)]

theorem isWs_headD_dropWhile (l : List Byte) :
    isWsByte ((l.dropWhile isWsByte).headD 0) = false := by
  induction l with
  | nil => decide
  | cons c t ih =>
    by_cases hw : isWsByte c = true
    · simp only [List.dropWhile_cons, hw, if_true]
      exact ih
    · have hw' : isWsByte c = false := by simpa using hw
      simp [List.dropWhile_cons, hw']

theorem consumeSt_shape (st : PState) (hss : st.skipSpace = true) (hne : st.str ≠ []) :
    ∃ w : List Byte, (∀ d ∈ w, isWsByte d = true) ∧
      st.str = nextB st :: (w ++ ((consumeSt st).2).str) ∧
      ((consumeSt st).2).skipSpace = true ∧
      isWsByte (((consumeSt st).2).str.headD 0) = false := by
  cases hstr : st.str with
  | nil => exact absurd hstr hne
  | cons a t =>
    have hc2 : (consumeSt st).2 = { st with str := t.dropWhile isWsByte, line := st.line + newlineCount (t.takeWhile isWsByte) } := by
      unfold consumeSt
      dsimp only
      rw [hss, if_pos rfl]
      unfold skip_space
      dsimp only
      rw [hstr]
      dsimp only [List.tail_cons]
      rw [skipSpaceGo_eq]
    have hna : nextB st = a := by unfold nextB; rw [hstr]; rfl
    refine ⟨t.takeWhile isWsByte, ?_, ?_, ?_, ?_⟩
    · intro d hd
      exact List.mem_takeWhile_imp hd
    · rw [hc2, hna]
      dsimp only
      rw [List.takeWhile_append_dropWhile]
    · rw [hc2]
      exact hss
    · rw [hc2]
      exact isWs_headD_dropWhile t

theorem expectTok_shape (c : Byte) (st : PState) (u : Unit) (st' : PState)
    (hc0 : c ≠ 0) (hss : st.skipSpace = true)
    (h : expectTok c st = .ok (u, st')) :
    ∃ w : List Byte, (∀ d ∈ w, isWsByte d = true) ∧
      st.str = c :: (w ++ st'.str) ∧ st'.skipSpace = true ∧
      isWsByte (st'.str.headD 0) = false := by
  unfold expectTok at h
  by_cases h1 : (nextB st != c) = true
  · rw [if_pos h1] at h
    exact Except.noConfusion h
  · rw [if_neg h1, if_pos (by simpa using hc0)] at h
    have hnx : nextB st = c := by simpa using h1
    simp only [Except.ok.injEq, Prod.mk.injEq] at h
    obtain ⟨-, hst'⟩ := h
    have hne : st.str ≠ [] := by
      intro hnil
      apply hc0
      rw [← hnx]
      unfold nextB
      rw [hnil]
      rfl
    obtain ⟨w, hw, hshape, hss', hhd⟩ := consumeSt_shape st hss hne
    rw [hst'] at hshape hss' hhd
    rw [hnx] at hshape
    exact ⟨w, hw, hshape, hss', hhd⟩

theorem expectList_shape (cs : List Byte) :
    ∀ (st : PState) (u : Unit) (st' : PState),
    (∀ d ∈ cs, d ≠ 0) → st.skipSpace = true →
    expectList cs st = .ok (u, st') →
    ∃ wss : List (List Byte), wss.length = cs.length ∧
      (∀ w ∈ wss, ∀ d ∈ w, isWsByte d = true) ∧
      st.str = kwInterleave cs wss ++ st'.str ∧ st'.skipSpace = true ∧
      (cs = [] → st' = st) ∧
      (cs ≠ [] → isWsByte (st'.str.headD 0) = false) := by
  induction cs with
  | nil =>
    intro st u st' _ hss h
    unfold expectList at h
    simp only [Except.ok.injEq, Prod.mk.injEq] at h
    obtain ⟨-, hst'⟩ := h
    refine ⟨[], rfl, by simp, ?_, ?_, fun _ => hst'.symm, fun hne => absurd rfl hne⟩
    · rw [← hst']
      rfl
    · rw [← hst']
      exact hss
  | cons c cs ih =>
    intro st u st' hcs hss h
    unfold expectList at h
    cases he : expectTok c st with
    | error e =>
      rw [he] at h
      exact Except.noConfusion h
    | ok r =>
      obtain ⟨u1, st1⟩ := r
      rw [he] at h
      dsimp only at h
      obtain ⟨w, hw, hshape, hss1, hhd1⟩ :=
        expectTok_shape c st u1 st1 (hcs c (by simp)) hss he
      obtain ⟨wss, hlen, hws, hshape2, hss2, hnil, hhd2⟩ :=
        ih st1 u st' (fun d hd => hcs d (by simp [hd])) hss1 h
      refine ⟨w :: wss, by simp [hlen], ?_, ?_, hss2,
        fun hne => absurd hne (by simp), fun _ => ?_⟩
      · intro w' hw'
        rcases List.mem_cons.mp hw' with h' | h'
        · rw [h']
          exact hw
        · exact hws w' h'
      · rw [hshape, hshape2]
        simp [kwInterleave, List.append_assoc]
      · rcases Decidable.em (cs = []) with hc | hc
        · rw [hnil hc]
          exact hhd1
        · exact hhd2 hc

theorem parse_keyword_shape (c : Byte) (cs : List Byte) (st : PState) (u : Unit) (st' : PState)
    (hcs : ∀ d ∈ cs, d ≠ 0) (hc0 : c ≠ 0) (hss : st.skipSpace = true)
    (hnx : nextB st = c)
    (h : parse_keyword (c :: cs) st = .ok (u, st')) :
    ∃ wss : List (List Byte), wss.length = cs.length + 1 ∧
      (∀ w ∈ wss, ∀ d ∈ w, isWsByte d = true) ∧
      st.str = kwInterleave (c :: cs) wss ++ st'.str ∧
      isWsByte (st'.str.headD 0) = false := by
  unfold parse_keyword at h
  dsimp only at h
  simp only [List.tail_cons] at h
  have hne : st.str ≠ [] := by
    intro hnil
    apply hc0
    rw [← hnx]
    unfold nextB
    rw [hnil]
    rfl
  obtain ⟨w0, hw0, hshape0, hss1, hhd1⟩ := consumeSt_shape st hss hne
  rw [hnx] at hshape0
  cases hel : expectList cs (consumeSt st).2 with
  | error e =>
    rw [hel] at h
    exact Except.noConfusion h
  | ok r =>
    obtain ⟨u2, st2⟩ := r
    rw [hel] at h
    dsimp only at h
    unfold mem_allocSt at h
    rw [if_neg (by decide)] at h
    simp only [Except.ok.injEq, Prod.mk.injEq] at h
    obtain ⟨-, hst'⟩ := h
    have hstr' : st'.str = st2.str := by rw [← hst']
    obtain ⟨wss, hlen, hws, hshape2, hss2, hnil, hhd2⟩ :=
      expectList_shape cs (consumeSt st).2 u2 st2 hcs hss1 hel
    refine ⟨w0 :: wss, by simp [hlen], ?_, ?_, ?_⟩
    · intro w' hw'
      rcases List.mem_cons.mp hw' with h' | h'
      · rw [h']
        exact hw0
      · exact hws w' h'
    · rw [hshape0, hshape2, hstr']
      simp [kwInterleave, List.append_assoc]
    · rw [hstr']
      rcases Decidable.em (cs = []) with hc | hc
      · rw [hnil hc]
        exact hhd1
      · exact hhd2 hc

theorem expectList_err_msg (cs : List Byte) :
    ∀ (st est : PState) (msg : String),
    expectList cs st = .error (est, msg) →
    ∃ a b : String, msg = "unexpected token " ++ a ++ ", expected " ++ b := by
  induction cs with
  | nil =>
    intro st est msg h
    unfold expectList at h
    exact Except.noConfusion h
  | cons c cs ih =>
    intro st est msg h
    unfold expectList at h
    cases he : expectTok c st with
    | error e =>
      rw [he] at h
      dsimp only at h
      obtain ⟨est1, msg1⟩ := e
      simp only [Except.error.injEq, Prod.mk.injEq] at h
      obtain ⟨-, hmsg⟩ := h
      unfold expectTok at he
      by_cases h1 : (nextB st != c) = true
      · rw [if_pos h1] at he
        simp only [Except.error.injEq, Prod.mk.injEq] at he
        exact ⟨prByte (nextB st), prByte c, by rw [← hmsg, ← he.2]⟩
      · rw [if_neg h1] at he
        by_cases h2 : (c != 0) = true
        · rw [if_pos h2] at he
          exact Except.noConfusion he
        · rw [if_neg h2] at he
          exact Except.noConfusion he
    | ok r =>
      obtain ⟨u1, st1⟩ := r
      rw [he] at h
      dsimp only at h
      exact ih st1 est msg h

theorem parse_keyword_err_msg (kw : List Byte) (st est : PState) (msg : String)
    (h : parse_keyword kw st = .error (est, msg)) :
    ∃ a b : String, msg = "unexpected token " ++ a ++ ", expected " ++ b := by
  unfold parse_keyword at h
  dsimp only at h
  cases hel : expectList kw.tail (consumeSt st).2 with
  | error e =>
    rw [hel] at h
    dsimp only at h
    obtain ⟨est1, msg1⟩ := e
    simp only [Except.error.injEq, Prod.mk.injEq] at h
    obtain ⟨-, hmsg⟩ := h
    obtain ⟨a, b, hab⟩ := expectList_err_msg kw.tail (consumeSt st).2 est1 msg1 hel
    exact ⟨a, b, by rw [← hmsg, hab]⟩
  | ok r =>
    obtain ⟨u2, st2⟩ := r
    rw [hel] at h
    dsimp only at h
    unfold mem_allocSt at h
    rw [if_neg (by decide)] at h
    exact Except.noConfusion h

/-- C2 (counterexample): the literal keyword match is not contiguous: the
input `t rue` (whitespace between `t` and `rue`) is accepted as the boolean
`true`, because `consume` skips whitespace after every accepted keyword
character. -/
theorem C2_counterexample :
    json_parse_sax true [116, 32, 114, 117, 101] =
      { retval := 0, events := [.onBoolean true], allocs := 1 } := by
  decide

/-- C2 (amended): a literal keyword is accepted exactly when the input
consumed for it is the keyword's characters in order, each followed by a
(possibly empty) whitespace run: every accepted character is consumed by
`consume`, which then skips whitespace; any deviation in the sequence of
non-whitespace characters is a fatal "unexpected token ..., expected ..."
parse error.  Parts 1-3 (acceptance): arbitrary whitespace runs may appear
between the characters of `true`, `false` and `null`.  Part 4 (a concrete
rejection position): after `t` and any whitespace, a non-whitespace
character other than `r` fails with "unexpected token ..., expected 'r'"
at the line reached by the skipped whitespace.  Part 5 (only-if): every
successful run of the keyword matcher decomposes the input it consumed as
exactly the keyword's characters each followed by a whitespace run
(`kwInterleave`), so an input whose non-whitespace character sequence
deviates from the keyword at any position is never accepted.  Part 6:
whenever the keyword matcher fails, the fatal error it raises is an
"unexpected token ..., expected ..." error (naming the offending and the
expected character). -/
theorem C2_amended_keyword_ws :
    (∀ ws1 ws2 ws3 : List Byte,
      (∀ d ∈ ws1, isWsByte d = true) → (∀ d ∈ ws2, isWsByte d = true) →
      (∀ d ∈ ws3, isWsByte d = true) →
      json_parse_sax true (116 :: ws1 ++ 114 :: ws2 ++ 117 :: ws3 ++ [101]) =
        { retval := 0, events := [.onBoolean true], allocs := 1 }) ∧
    (∀ ws1 ws2 ws3 ws4 : List Byte,
      (∀ d ∈ ws1, isWsByte d = true) → (∀ d ∈ ws2, isWsByte d = true) →
      (∀ d ∈ ws3, isWsByte d = true) → (∀ d ∈ ws4, isWsByte d = true) →
      json_parse_sax true (102 :: ws1 ++ 97 :: ws2 ++ 108 :: ws3 ++ 115 :: ws4 ++ [101]) =
        { retval := 0, events := [.onBoolean false], allocs := 1 }) ∧
    (∀ ws1 ws2 ws3 : List Byte,
      (∀ d ∈ ws1, isWsByte d = true) → (∀ d ∈ ws2, isWsByte d = true) →
      (∀ d ∈ ws3, isWsByte d = true) →
      json_parse_sax true (110 :: ws1 ++ 117 :: ws2 ++ 108 :: ws3 ++ [108]) =
        { retval := 0, events := [.onNull], allocs := 1 }) ∧
    (∀ (ws1 : List Byte) (c : Byte) (rest : List Byte),
      (∀ d ∈ ws1, isWsByte d = true) → isWsByte c = false → c ≠ 114 →
      json_parse_sax true (116 :: ws1 ++ c :: rest) =
        { retval := -1,
          events := [.onError (1 + newlineCount ws1)
            ("unexpected token " ++ prByte c ++ ", expected " ++ prByte 114)],
          allocs := 0 }) ∧
    (∀ (c : Byte) (cs : List Byte) (st : PState) (u : Unit) (st' : PState),
      (∀ d ∈ cs, d ≠ 0) → c ≠ 0 → st.skipSpace = true → nextB st = c →
      parse_keyword (c :: cs) st = .ok (u, st') →
      ∃ wss : List (List Byte), wss.length = cs.length + 1 ∧
        (∀ w ∈ wss, ∀ d ∈ w, isWsByte d = true) ∧
        st.str = kwInterleave (c :: cs) wss ++ st'.str ∧
        isWsByte (st'.str.headD 0) = false) ∧
    (∀ (kw : List Byte) (st est : PState) (msg : String),
      parse_keyword kw st = .error (est, msg) →
      ∃ a b : String, msg = "unexpected token " ++ a ++ ", expected " ++ b) := by
  refine ⟨?_, ?_, ?_, ?_, ?_, ?_⟩
  · intro ws1 ws2 ws3 h1 h2 h3
    unfold json_parse_sax
    dsimp only
    rw [skip_space_nonws _ (by rfl)]
    obtain ⟨m, hm⟩ := exists_saxFuel_succ (116 :: ws1 ++ 114 :: ws2 ++ 117 :: ws3 ++ [101])
    rw [hm]
    unfold parse_value
    dsimp only
    rw [show nextB (initState (116 :: ws1 ++ 114 :: ws2 ++ 117 :: ws3 ++ [101])) = 116 from rfl]
    rw [if_neg (by decide), if_neg (by decide), if_neg (by decide), if_neg (by decide),
      if_pos (by decide)]
    unfold parse_keyword
    simp only [List.tail_cons]
    rw [consumeSt_cons_ws 116 ws1 (114 :: (ws2 ++ 117 :: ws3 ++ [101])) _ (by simp [initState]) h1 (by simp [isWsByte]) (by simp [initState])]
    dsimp only
    unfold expectList
    rw [expectTok_cons_ws 114 (by decide) ws2 (117 :: (ws3 ++ [101])) _ (by simp) h2 (by simp [isWsByte]) (by simp [initState])]
    dsimp only
    unfold expectList
    rw [expectTok_cons_ws 117 (by decide) ws3 [101] _ (by simp) h3 (by simp [isWsByte]) (by simp [initState])]
    dsimp only
    unfold expectList
    rw [expectTok_cons_ws 101 (by decide) [] [] _ (by simp)
      (fun d hd => absurd hd (List.not_mem_nil d)) (by simp [isWsByte]) (by simp [initState])]
    dsimp only
    unfold expectList
    dsimp only
    unfold mem_allocSt
    rw [if_neg (by decide)]
    dsimp only
    have hex : ∀ st : PState, st.str = [] → expectTok 0 st = .ok ((), st) := by
      intro st hst
      unfold expectTok
      rw [show nextB st = 0 from by unfold nextB; rw [hst]; rfl]
      rw [if_neg (by decide), if_neg (by decide)]
    rw [hex _ (by rfl)]
    rfl
  · intro ws1 ws2 ws3 ws4 h1 h2 h3 h4
    unfold json_parse_sax
    dsimp only
    rw [skip_space_nonws _ (by rfl)]
    obtain ⟨m, hm⟩ :=
      exists_saxFuel_succ (102 :: ws1 ++ 97 :: ws2 ++ 108 :: ws3 ++ 115 :: ws4 ++ [101])
    rw [hm]
    unfold parse_value
    dsimp only
    rw [show nextB (initState (102 :: ws1 ++ 97 :: ws2 ++ 108 :: ws3 ++ 115 :: ws4 ++ [101]))
        = 102 from rfl]
    rw [if_neg (by decide), if_neg (by decide), if_neg (by decide), if_neg (by decide),
      if_neg (by decide), if_pos (by decide)]
    unfold parse_keyword
    simp only [List.tail_cons]
    rw [consumeSt_cons_ws 102 ws1 (97 :: (ws2 ++ 108 :: ws3 ++ 115 :: ws4 ++ [101])) _
      (by simp [initState]) h1 (by simp [isWsByte]) (by simp [initState])]
    dsimp only
    unfold expectList
    rw [expectTok_cons_ws 97 (by decide) ws2 (108 :: (ws3 ++ 115 :: ws4 ++ [101])) _
      (by simp) h2 (by simp [isWsByte]) (by simp [initState])]
    dsimp only
    unfold expectList
    rw [expectTok_cons_ws 108 (by decide) ws3 (115 :: (ws4 ++ [101])) _ (by simp) h3 (by simp [isWsByte]) (by simp [initState])]
    dsimp only
    unfold expectList
    rw [expectTok_cons_ws 115 (by decide) ws4 [101] _ (by simp) h4 (by simp [isWsByte]) (by simp [initState])]
    dsimp only
    unfold expectList
    rw [expectTok_cons_ws 101 (by decide) [] [] _ (by simp)
      (fun d hd => absurd hd (List.not_mem_nil d)) (by simp [isWsByte]) (by simp [initState])]
    dsimp only
    unfold expectList
    dsimp only
    unfold mem_allocSt
    rw [if_neg (by decide)]
    dsimp only
    have hex : ∀ st : PState, st.str = [] → expectTok 0 st = .ok ((), st) := by
      intro st hst
      unfold expectTok
      rw [show nextB st = 0 from by unfold nextB; rw [hst]; rfl]
      rw [if_neg (by decide), if_neg (by decide)]
    rw [hex _ (by rfl)]
    rfl
  · intro ws1 ws2 ws3 h1 h2 h3
    unfold json_parse_sax
    dsimp only
    rw [skip_space_nonws _ (by rfl)]
    obtain ⟨m, hm⟩ := exists_saxFuel_succ (110 :: ws1 ++ 117 :: ws2 ++ 108 :: ws3 ++ [108])
    rw [hm]
    unfold parse_value
    dsimp only
    rw [show nextB (initState (110 :: ws1 ++ 117 :: ws2 ++ 108 :: ws3 ++ [108])) = 110 from rfl]
    rw [if_neg (by decide), if_neg (by decide), if_neg (by decide), if_neg (by decide),
      if_neg (by decide), if_neg (by decide), if_pos (by decide)]
    unfold parse_keyword
    simp only [List.tail_cons]
    rw [consumeSt_cons_ws 110 ws1 (117 :: (ws2 ++ 108 :: ws3 ++ [108])) _ (by simp [initState]) h1 (by simp [isWsByte]) (by simp [initState])]
    dsimp only
    unfold expectList
    rw [expectTok_cons_ws 117 (by decide) ws2 (108 :: (ws3 ++ [108])) _ (by simp) h2 (by simp [isWsByte]) (by simp [initState])]
    dsimp only
    unfold expectList
    rw [expectTok_cons_ws 108 (by decide) ws3 [108] _ (by simp) h3 (by simp [isWsByte]) (by simp [initState])]
    dsimp only
    unfold expectList
    rw [expectTok_cons_ws 108 (by decide) [] [] _ (by simp)
      (fun d hd => absurd hd (List.not_mem_nil d)) (by simp [isWsByte]) (by simp [initState])]
    dsimp only
    unfold expectList
    dsimp only
    unfold mem_allocSt
    rw [if_neg (by decide)]
    dsimp only
    have hex : ∀ st : PState, st.str = [] → expectTok 0 st = .ok ((), st) := by
      intro st hst
      unfold expectTok
      rw [show nextB st = 0 from by unfold nextB; rw [hst]; rfl]
      rw [if_neg (by decide), if_neg (by decide)]
    rw [hex _ (by rfl)]
    rfl
  · intro ws1 c rest h1 hcw hc114
    unfold json_parse_sax
    dsimp only
    rw [skip_space_nonws _ (by rfl)]
    obtain ⟨m, hm⟩ := exists_saxFuel_succ (116 :: ws1 ++ c :: rest)
    rw [hm]
    unfold parse_value
    dsimp only
    rw [show nextB (initState (116 :: ws1 ++ c :: rest)) = 116 from rfl]
    rw [if_neg (by decide), if_neg (by decide), if_neg (by decide), if_neg (by decide),
      if_pos (by decide)]
    unfold parse_keyword
    simp only [List.tail_cons]
    rw [consumeSt_cons_ws 116 ws1 (c :: rest) _ (by simp [initState]) h1 (by simpa using hcw) (by simp [initState])]
    dsimp only
    unfold expectList
    rw [expectTok_err 114 _ (by exact hc114)]
    dsimp only [saxFail]
    simp [initState, nextB]
  · intro c cs st u st' hcs hc0 hss hnx h
    exact parse_keyword_shape c cs st u st' hcs hc0 hss hnx h
  · intro kw st est msg h
    exact parse_keyword_err_msg kw st est msg h

/-- C2 (witness): the keyword guarantees applied concretely — `t<TAB>rue`
is accepted as the boolean true; `tx` fails expecting `r`; the successful
match of `true` on `t rue` decomposes the consumed input as the keyword
characters interleaved with whitespace runs; and the failing match on `tx`
produces an "unexpected token ..., expected ..." message. -/
theorem C2_amended_keyword_ws_witness :
    json_parse_sax true (116 :: [9] ++ 114 :: [] ++ 117 :: [] ++ [101]) =
      { retval := 0, events := [.onBoolean true], allocs := 1 } ∧
    json_parse_sax true (116 :: [] ++ 120 :: []) =
      { retval := -1,
        events := [.onError (1 + newlineCount [])
          ("unexpected token " ++ prByte 120 ++ ", expected " ++ prByte 114)],
        allocs := 0 } ∧
    (∃ wss : List (List Byte), wss.length = ([114, 117, 101] : List Byte).length + 1 ∧
      (∀ w ∈ wss, ∀ d ∈ w, isWsByte d = true) ∧
      (⟨[116, 32, 114, 117, 101], 1, true, 0, []⟩ : PState).str =
        kwInterleave (116 :: [114, 117, 101]) wss ++ (⟨[], 1, true, 1, []⟩ : PState).str ∧
      isWsByte ((⟨[], 1, true, 1, []⟩ : PState).str.headD 0) = false) ∧
    (∃ a b : String,
      ("unexpected token " ++ prByte 120 ++ ", expected " ++ prByte 114)
        = "unexpected token " ++ a ++ ", expected " ++ b) :=
  ⟨C2_amended_keyword_ws.1 [9] [] [] (by decide) (by decide) (by decide),
   C2_amended_keyword_ws.2.2.2.1 [] 120 [] (by decide) (by decide) (by decide),
   C2_amended_keyword_ws.2.2.2.2.1 116 [114, 117, 101]
     ⟨[116, 32, 114, 117, 101], 1, true, 0, []⟩ () ⟨[], 1, true, 1, []⟩
     (by decide) (by decide) rfl rfl (by rfl),
   C2_amended_keyword_ws.2.2.2.2.2 [116, 114, 117, 101]
     ⟨[116, 120], 1, true, 0, []⟩ ⟨[120], 1, true, 0, []⟩
     ("unexpected token " ++ prByte 120 ++ ", expected " ++ prByte 114) (by rfl)⟩

/-- C10 (witness): the whitespace-set guarantees applied concretely — a tab
is skipped, `@` is not skipped, and `;` at a value position fails with an
"unexpected token" error. -/
theorem C10_whitespace_set_witness :
    ((skipSpaceGo (9 :: []) 1).1).length ≤ ([] : List Byte).length ∧
    skipSpaceGo (64 :: []) 1 = (64 :: [], 1) ∧
    json_parse_sax true (59 :: []) =
      { retval := -1, events := [.onError 1 ("unexpected token " ++ prByte 59)],
        allocs := 0 } :=
  ⟨C10_whitespace_set.1 9 [] 1 (by decide),
   C10_whitespace_set.2.1 64 [] 1 (by decide),
   C10_whitespace_set.2.2.1 59 [] (by decide) (by decide) (by decide) (by decide) (by decide)
     (by decide) (by decide) (by decide) (by decide) (by decide)⟩
